import Mathlib

/-!
Verification development for the CSC360FS disk tools
(diskinfo / disklist / diskget / diskput).

The C source is shallowly embedded at the byte level: a disk image is a
byte-addressable store `Disk := Nat → Nat` (reads are taken mod 256),
multi-byte integers are big-endian on disk, directory entries are
64-byte packed records, and every tool pipeline is translated from the C
control flow.  Loops whose C originals are unbounded `while (1)` walks
over the FAT are given an explicit `fuel` parameter; exhausting the fuel
models the C program still looping.
-/

namespace CSC360FS

/-- A byte-addressable disk image.  The C tools operate on an opened
image file via `fseek`/`fread`/`fwrite`; we model the file as a total
map from byte addresses to stored values. -/
def Disk : Type := Nat → Nat

/-- Read one byte.  A file byte is always in `[0,256)`. -/
def readByte (d : Disk) (a : Nat) : Nat := d a % 256

/-- Read `len` consecutive bytes starting at `off` (models `fseek` +
`fread`). -/
def readBytes (d : Disk) (off len : Nat) : List Nat :=
  (List.range len).map (fun i => readByte d (off + i))

/-- Write the bytes `data` at `off` (models `fseek` + `fwrite`). -/
def writeBytes (d : Disk) (off : Nat) (data : List Nat) : Disk :=
  fun a => if off ≤ a ∧ a < off + data.length then data.getD (a - off) 0 else d a

/-- Decode a 2-byte big-endian integer (`ntohs`). -/
def be16 (b : List Nat) : Nat := b.getD 0 0 * 256 + b.getD 1 0

/-- Decode a 4-byte big-endian integer (`ntohl`). -/
def be32 (b : List Nat) : Nat :=
  ((b.getD 0 0 * 256 + b.getD 1 0) * 256 + b.getD 2 0) * 256 + b.getD 3 0

/-- Encode a 32-bit value big-endian (`htonl`). -/
def enc32 (v : Nat) : List Nat :=
  [v / 16777216 % 256, v / 65536 % 256, v / 256 % 256, v % 256]

/-- The FAT chain terminator `0xFFFFFFFF`. -/
def fatEOF : Nat := 4294967295

/-- The superblock, fields already converted to host order
(`superblock_t` after `ntohs`/`ntohl`). -/
structure Superblock where
  block_size : Nat
  block_count : Nat
  fat_start : Nat
  fat_blocks : Nat
  root_start : Nat
  root_blocks : Nat
deriving DecidableEq

/-- The magic tag "CSC360FS". -/
def magicBytes : List Nat := [67, 83, 67, 51, 54, 48, 70, 83]

/-- Read and validate the superblock at offset 0; `none` models the
"not a CSC360FS file system" failure. -/
def readSuperblock (d : Disk) : Option Superblock :=
  if readBytes d 0 8 = magicBytes then
    some { block_size := be16 (readBytes d 8 2)
           block_count := be32 (readBytes d 10 4)
           fat_start := be32 (readBytes d 14 4)
           fat_blocks := be32 (readBytes d 18 4)
           root_start := be32 (readBytes d 22 4)
           root_blocks := be32 (readBytes d 26 4) }
  else none

/-- `fat_entries = fat_blocks * block_size / 4`. -/
def fatEntriesCount (sb : Superblock) : Nat := sb.fat_blocks * sb.block_size / 4

/-- Load the FAT into memory, already converted entrywise to host order
(the C code keeps raw big-endian words and applies `ntohl` at every
access; the two views agree since `ntohl ∘ htonl = id` on 32-bit
values). -/
def loadFat (d : Disk) (sb : Superblock) : List Nat :=
  (List.range (fatEntriesCount sb)).map
    (fun i => be32 (readBytes d (sb.fat_start * sb.block_size + 4 * i) 4))

/-- `write_fat`: serialize the in-memory table back to the FAT region in
one bulk write. -/
def write_fat (d : Disk) (sb : Superblock) (fat : List Nat) : Disk :=
  writeBytes d (sb.fat_start * sb.block_size) ((fat.map enc32).flatten)

/-- `dir_entry_t`, numeric fields in host order. -/
structure DirEntry where
  status : Nat
  starting_block : Nat
  block_count : Nat
  file_size : Nat
  create_time : List Nat
  modify_time : List Nat
  filename : List Nat
  unused : List Nat
deriving DecidableEq

/-- `sizeof(dir_entry_t)` = 1+4+4+4+7+7+31+6 = 64 bytes (packed). -/
def entrySize : Nat := 64

/-- Decode a 64-byte on-disk record into a `dir_entry_t`. -/
def decodeEntry (b : List Nat) : DirEntry :=
  { status := b.getD 0 0
    starting_block := be32 (b.drop 1)
    block_count := be32 (b.drop 5)
    file_size := be32 (b.drop 9)
    create_time := (b.drop 13).take 7
    modify_time := (b.drop 20).take 7
    filename := ((b.drop 27).take 31)
    unused := ((b.drop 58).take 6) }

/-- Right-pad a field to its fixed on-disk width with zero bytes. -/
def padTo (l : List Nat) (n : Nat) : List Nat :=
  l.take n ++ List.replicate (n - l.length) 0

/-- Encode a `dir_entry_t` into its 64 on-disk bytes. -/
def encodeEntry (e : DirEntry) : List Nat :=
  [e.status % 256] ++ enc32 e.starting_block ++ enc32 e.block_count ++
    enc32 e.file_size ++ padTo e.create_time 7 ++ padTo e.modify_time 7 ++
    padTo e.filename 31 ++ padTo e.unused 6

/-- `status & 0x01`: the in-use bit. -/
def isUsed (e : DirEntry) : Bool := e.status.testBit 0

/-- `status & 0x02`: the regular-file bit. -/
def isFile (e : DirEntry) : Bool := e.status.testBit 1

/-- `status & 0x04`: the directory bit. -/
def isDir (e : DirEntry) : Bool := e.status.testBit 2

/-- `strncmp(a, b, n) == 0`, on byte sequences; indexing past a list's
end yields the NUL terminator, matching the C-string reads. -/
def strncmpEq : List Nat → List Nat → Nat → Bool
  | _, _, 0 => true
  | a, b, n + 1 =>
    if a.getD 0 0 = b.getD 0 0 then
      if a.getD 0 0 = 0 then true else strncmpEq (a.drop 1) (b.drop 1) n
    else false

/-- Number of directory entries per data block:
`block_size / sizeof(dir_entry_t)`. -/
def entriesPerBlock (sb : Superblock) : Nat := sb.block_size / entrySize

/-- Number of entries in the root region:
`root_blocks * block_size / sizeof(dir_entry_t)`. -/
def rootEntriesCount (sb : Superblock) : Nat :=
  sb.root_blocks * sb.block_size / entrySize

/-- Byte offset of the root region: `root_start * block_size`. -/
def rootOffset (sb : Superblock) : Nat := sb.root_start * sb.block_size

/-- Read the 64-byte directory record at byte offset `off`. -/
def readEntryAt (d : Disk) (off : Nat) : DirEntry :=
  decodeEntry (readBytes d off entrySize)

/-- The root region's directory entries, in on-disk order (the C loops
`fread` them sequentially from `root_offset`). -/
def rootEntryList (d : Disk) (sb : Superblock) : List DirEntry :=
  (List.range (rootEntriesCount sb)).map
    (fun i => readEntryAt d (rootOffset sb + entrySize * i))

/-- The `entries_per_block` directory entries stored in block `blk`. -/
def blockEntryList (d : Disk) (sb : Superblock) (blk : Nat) : List DirEntry :=
  (List.range (entriesPerBlock sb)).map
    (fun i => readEntryAt d (blk * sb.block_size + entrySize * i))

/-- The predicate a path component must satisfy against an entry during
path resolution: in use, directory-typed, bounded name match. -/
def dirMatch (c : List Nat) (e : DirEntry) : Bool :=
  isUsed e && isDir e && strncmpEq e.filename c 31

/-- The predicate used when looking a file up by name: in use,
regular-file-typed, bounded name match. -/
def fileMatch (c : List Nat) (e : DirEntry) : Bool :=
  isUsed e && isFile e && strncmpEq e.filename c 31

/-- First entry of `entries` matching component `c` as a directory. -/
def findDirIn (entries : List DirEntry) (c : List Nat) : Option DirEntry :=
  entries.find? (dirMatch c)

/-- First entry of `entries` matching name `c` as a regular file. -/
def findFileIn (entries : List DirEntry) (c : List Nat) : Option DirEntry :=
  entries.find? (fileMatch c)

/-- Outcome of a `while (1)` walk over a FAT chain looking for an
entry. -/
inductive ChainFind where
  | found (e : DirEntry)
  | absent
  | corrupt
  | diverge
deriving DecidableEq

/-- The chain-walking search inside `resolve_directory_path`
(`while (1)` over FAT links, scanning `entries_per_block` records per
block for an in-use directory entry named `c`).  `fuel = 0` models the
C loop still running. -/
def findDirInChain (d : Disk) (sb : Superblock) (fat : List Nat)
    (c : List Nat) : Nat → Nat → ChainFind
  | 0, _ => .diverge
  | fuel + 1, cur =>
    if fat.length ≤ cur then .corrupt
    else
      match findDirIn (blockEntryList d sb cur) c with
      | some e => .found e
      | none =>
        if fat.getD cur 0 = fatEOF then .absent
        else findDirInChain d sb fat c fuel (fat.getD cur 0)

/-- `find_file_in_directory_chain`: same walk, matching a regular file
named `c`. -/
def find_file_in_directory_chain (d : Disk) (sb : Superblock)
    (fat : List Nat) (c : List Nat) : Nat → Nat → ChainFind
  | 0, _ => .diverge
  | fuel + 1, cur =>
    if fat.length ≤ cur then .corrupt
    else
      match findFileIn (blockEntryList d sb cur) c with
      | some e => .found e
      | none =>
        if fat.getD cur 0 = fatEOF then .absent
        else find_file_in_directory_chain d sb fat c fuel (fat.getD cur 0)

/-- `strtok(path, "/")`: the maximal nonempty runs of non-`'/'` bytes.
`acc` is the token being accumulated. -/
def tokenizeAux : List Nat → List Nat → List (List Nat)
  | acc, [] => if acc = [] then [] else [acc]
  | acc, c :: rest =>
    if c = 47 then
      if acc = [] then tokenizeAux [] rest else acc :: tokenizeAux [] rest
    else tokenizeAux (acc ++ [c]) rest

/-- Split a path into its slash-separated components. -/
def tokenize (s : List Nat) : List (List Nat) := tokenizeAux [] s

/-- Result of `resolve_directory_path`: the root region, a subdirectory
chain head, the C `return 1` failure, or a non-terminating walk. -/
inductive Resolved where
  | rootDir
  | subdir (startBlock : Nat)
  | failed
  | diverge
deriving DecidableEq

/-- The component loop of `resolve_directory_path`: `atRoot` mirrors
`at_root`, `cur` mirrors `current_start_block`. -/
def resolveComponents (d : Disk) (sb : Superblock) (fat : List Nat)
    (fuel : Nat) : List (List Nat) → Bool → Nat → Resolved
  | [], atRoot, cur => if atRoot then .failed else .subdir cur
  | c :: rest, true, _ =>
    match findDirIn (rootEntryList d sb) c with
    | none => .failed
    | some e => resolveComponents d sb fat fuel rest false e.starting_block
  | c :: rest, false, cur =>
    match findDirInChain d sb fat c fuel cur with
    | .found e => resolveComponents d sb fat fuel rest false e.starting_block
    | .absent => .failed
    | .corrupt => .failed
    | .diverge => .diverge

/-- `resolve_directory_path`: `"/"` and the empty path are the root
region; any other path must start with `'/'` and is resolved component
by component. -/
def resolve_directory_path (d : Disk) (sb : Superblock) (fat : List Nat)
    (fuel : Nat) (path : List Nat) : Resolved :=
  if path = [47] ∨ path = [] then .rootDir
  else if path.headD 0 ≠ 47 then .failed
  else resolveComponents d sb fat fuel (tokenize (path.drop 1)) true 0

/-- The body of the collection loop of `allocate_blocks`, iterating over
the remaining indices with an early exit once `needed` hits zero:
`for (i = 0; i < fat_entries && found < blocks_needed; i++)
   if (fat[i] == 0) out_blocks[found++] = i;`. -/
def collectFreeGo (fat : List Nat) : List Nat → Nat → List Nat
  | [], _ => []
  | i :: rest, needed =>
    if needed = 0 then []
    else if fat.getD i 0 = 0 then i :: collectFreeGo fat rest (needed - 1)
    else collectFreeGo fat rest needed

/-- The collection loop of `allocate_blocks` over indices
`0 .. fat_entries - 1`. -/
def collectFree (fat : List Nat) (needed : Nat) : List Nat :=
  collectFreeGo fat (List.range fat.length) needed

/-- The linking loop of `allocate_blocks`: `fat[out[j]] = out[j+1]` for
each consecutive pair, then `fat[out[last]] = 0xFFFFFFFF`. -/
def linkChain (fat : List Nat) : List Nat → List Nat
  | [] => fat
  | [b] => fat.set b fatEOF
  | b :: b' :: rest => linkChain (fat.set b b') (b' :: rest)

/-- `allocate_blocks`: collect the lowest-indexed free entries, fail if
fewer than `needed` exist, otherwise link them into a chain in the
in-memory table.  Returns the block list and the updated table. -/
def allocate_blocks (fat : List Nat) (needed : Nat) :
    Option (List Nat × List Nat) :=
  let out := collectFree fat needed
  if out.length < needed then none else some (out, linkChain fat out)

/-- The type letter `disklist` prints for an entry. -/
inductive EntryType where
  | file
  | dir
deriving DecidableEq

/-- `print_dir_entry`: entries with the in-use bit clear are skipped;
an in-use entry prints `F` if its file bit is set, else `D` if its
directory bit is set, else nothing. -/
def print_dir_entry (e : DirEntry) : Option EntryType :=
  if ¬ e.status.testBit 0 then none
  else if e.status.testBit 1 then some .file
  else if e.status.testBit 2 then some .dir
  else none

/-- The lines printed for one directory block. -/
def blockListing (d : Disk) (sb : Superblock) (blk : Nat) : List EntryType :=
  (blockEntryList d sb blk).filterMap print_dir_entry

/-- Outcome of `list_directory_from_chain`: the listing up to the
sentinel, the listing truncated by an out-of-range FAT index, or a walk
that never terminates. -/
inductive ListResult where
  | ok (shown : List EntryType)
  | corrupt (shown : List EntryType)
  | diverge
deriving DecidableEq

/-- `list_directory_from_chain`: print every block of the chain, follow
`fat[current]` until the sentinel; the only guard is the out-of-range
check. -/
def list_directory_from_chain (d : Disk) (sb : Superblock)
    (fat : List Nat) : Nat → Nat → ListResult
  | 0, _ => .diverge
  | fuel + 1, cur =>
    if fat.length ≤ cur then .corrupt []
    else
      let shown := blockListing d sb cur
      if fat.getD cur 0 = fatEOF then .ok shown
      else
        match list_directory_from_chain d sb fat fuel (fat.getD cur 0) with
        | .ok rest => .ok (shown ++ rest)
        | .corrupt rest => .corrupt (shown ++ rest)
        | .diverge => .diverge

/-- Outcome of the `diskget` data-copy loop. -/
inductive ReadResult where
  | ok (bytes : List Nat)
  | ioError
  | diverge
deriving DecidableEq

/-- The `diskget` data loop: while bytes remain, check the range guard,
read `min(remaining, block_size)` bytes from the current block, then
follow `fat[current]`, stopping early (successfully) at the sentinel. -/
def readFileChain (d : Disk) (sb : Superblock) (fat : List Nat) :
    Nat → Nat → Nat → ReadResult
  | 0, _, _ => .diverge
  | fuel + 1, cur, remaining =>
    if remaining = 0 then .ok []
    else if fat.length ≤ cur then .ioError
    else
      let toRead := min remaining sb.block_size
      let chunk := readBytes d (cur * sb.block_size) toRead
      if remaining - toRead = 0 then .ok chunk
      else if fat.getD cur 0 = fatEOF then .ok chunk
      else
        match readFileChain d sb fat fuel (fat.getD cur 0)
            (remaining - toRead) with
        | .ok rest => .ok (chunk ++ rest)
        | r => r

/-- Position of the last `'/'` in a path (`strrchr(path, '/')`). -/
def lastSlashIdx (p : List Nat) : Option Nat :=
  ((List.range p.length).filter (fun i => p.getD i 0 = 47)).getLast?

/-- `diskget`'s split of the source path into directory part and
filename; the filename buffer keeps at most 31 bytes
(`strncpy(filename, ..., 31)`). -/
def splitTargetGet (p : List Nat) : List Nat × List Nat :=
  match lastSlashIdx p with
  | none => ([47], p.take 31)
  | some k => (if k = 0 then [47] else p.take k, (p.drop (k + 1)).take 31)

/-- `diskput`'s split of the target path; its filename buffer keeps at
most 30 bytes (`strncpy(filename, ..., 30)`). -/
def splitTargetPut (p : List Nat) : List Nat × List Nat :=
  match lastSlashIdx p with
  | none => ([47], p.take 30)
  | some k => (if k = 0 then [47] else p.take k, (p.drop (k + 1)).take 30)

/-- The 31-byte filename field produced by zero-initializing the record,
`strncpy(field, name, 30)` and forcing `field[30] = '\0'`. -/
def nameField (s : List Nat) : List Nat :=
  (s.take 30 ++ List.replicate 31 0).take 31

/-- The self-referential `.` entry placed in a freshly created
subdirectory block (status `0x05`, `starting_block` = the new block). -/
def dotEntry (nb : Nat) : DirEntry :=
  { status := 5, starting_block := nb, block_count := 1, file_size := 0
    create_time := List.replicate 7 0, modify_time := List.replicate 7 0
    filename := 46 :: List.replicate 30 0, unused := List.replicate 6 255 }

/-- The root-region entry created for a new subdirectory (status
`0x05`). -/
def subdirEntry (dirname : List Nat) (nb : Nat) : DirEntry :=
  { status := 5, starting_block := nb, block_count := 1, file_size := 0
    create_time := List.replicate 7 0, modify_time := List.replicate 7 0
    filename := nameField dirname, unused := List.replicate 6 255 }

/-- The directory entry created for a stored file (status `0x03`). -/
def newFileEntry (filename : List Nat) (startBlock blockCount fileSize : Nat) :
    DirEntry :=
  { status := 3, starting_block := startBlock, block_count := blockCount
    file_size := fileSize
    create_time := List.replicate 7 0, modify_time := List.replicate 7 0
    filename := nameField filename, unused := List.replicate 6 255 }

/-- The bytes written when a new subdirectory block is initialized: a
`calloc`-zeroed block of `entries_per_block` records with the `.` entry
copied into slot 0. -/
def newDirBlockBytes (sb : Superblock) (nb : Nat) : List Nat :=
  (encodeEntry (dotEntry nb) ++
    List.replicate (entriesPerBlock sb * entrySize) 0).take
    (entriesPerBlock sb * entrySize)

/-- Index of the first root-region slot whose in-use bit is clear. -/
def findFreeRootSlot (d : Disk) (sb : Superblock) : Option Nat :=
  (List.range (rootEntriesCount sb)).find?
    (fun i => ! isUsed (readEntryAt d (rootOffset sb + entrySize * i)))

/-- Outcome of `ensure_simple_subdir_exists`, distinguishing the failure
modes the C collapses into `return 1`. -/
inductive EnsureResult where
  | ok (isRoot : Bool) (startBlock : Nat)
  | pathError
  | noSpace
  | dirFull
  | diverge
deriving DecidableEq

/-- Map a `Resolved` to the `(is_root_dir, start_block)` outcome the C
caller sees. -/
def ensureOfResolved : Resolved → EnsureResult
  | .rootDir => .ok true 0
  | .subdir b => .ok false b
  | .failed => .pathError
  | .diverge => .diverge

/-- `ensure_simple_subdir_exists`: `/` and the empty path are root;
multi-level paths just resolve; a missing single-level `/name` is
created: allocate one block, write it as an empty directory holding
`.`, insert a root entry named `name` into the first free slot, then
re-resolve.  Returns the outcome, the disk after any writes, and the
in-memory FAT. -/
def ensure_simple_subdir_exists (d : Disk) (sb : Superblock)
    (fat : List Nat) (fuel : Nat) (dir_path : List Nat) :
    EnsureResult × Disk × List Nat :=
  if dir_path = [47] ∨ dir_path = [] then (.ok true 0, d, fat)
  else if dir_path.headD 0 ≠ 47 then (.pathError, d, fat)
  else if 47 ∈ dir_path.drop 1 then
    (ensureOfResolved (resolve_directory_path d sb fat fuel dir_path), d, fat)
  else
    match resolve_directory_path d sb fat fuel dir_path with
    | .rootDir => (.ok true 0, d, fat)
    | .subdir b => (.ok false b, d, fat)
    | .diverge => (.diverge, d, fat)
    | .failed =>
      let dirname := (dir_path.drop 1).take 30
      match allocate_blocks fat 1 with
      | none => (.noSpace, d, fat)
      | some (blocks, fat') =>
        let nb := blocks.headD 0
        let d1 := writeBytes d (nb * sb.block_size) (newDirBlockBytes sb nb)
        match findFreeRootSlot d1 sb with
        | none => (.dirFull, d1, fat')
        | some j =>
          let d2 := writeBytes d1 (rootOffset sb + entrySize * j)
            (encodeEntry (subdirEntry dirname nb))
          (ensureOfResolved (resolve_directory_path d2 sb fat' fuel dir_path),
            d2, fat')

/-- Outcome of inserting a directory entry into a subdirectory chain. -/
inductive InsertOutcome where
  | inserted
  | full
  | corrupt
  | diverge
deriving DecidableEq

/-- The `diskput` loop that walks a subdirectory chain looking for the
first free slot and overwrites exactly that record. -/
def insertEntryInChain (d : Disk) (sb : Superblock) (fat : List Nat)
    (e : DirEntry) : Nat → Nat → InsertOutcome × Disk
  | 0, _ => (.diverge, d)
  | fuel + 1, cur =>
    if fat.length ≤ cur then (.corrupt, d)
    else
      match (List.range (entriesPerBlock sb)).find?
          (fun i => ! isUsed
            (readEntryAt d (cur * sb.block_size + entrySize * i))) with
      | some i =>
        (.inserted,
          writeBytes d (cur * sb.block_size + entrySize * i) (encodeEntry e))
      | none =>
        if fat.getD cur 0 = fatEOF then (.full, d)
        else insertEntryInChain d sb fat e fuel (fat.getD cur 0)

/-- The bytes `diskput` writes for the `i`-th block of a stored file:
the next `min(remaining, block_size)` source bytes, zero-padded to a
full block. -/
def fileBlockBytes (data : List Nat) (bs i : Nat) : List Nat :=
  (data.drop (i * bs)).take bs ++
    List.replicate (bs - ((data.drop (i * bs)).take bs).length) 0

/-- Write the file data across the allocated blocks in index order
(`i` counts the blocks already written). -/
def writeFileBlocks (bs : Nat) (data : List Nat) :
    Disk → List Nat → Nat → Disk
  | d, [], _ => d
  | d, blk :: rest, i =>
    writeFileBlocks bs data
      (writeBytes d (blk * bs) (fileBlockBytes data bs i)) rest (i + 1)

/-- Outcome of `diskput_main` (the host-side source file is passed as
its byte content). -/
inductive PutResult where
  | ok
  | formatError
  | dirNotFound
  | outOfSpace
  | dirFull
  | ioError
  | diverge
deriving DecidableEq

/-- `blocks_needed = ceil(size / block_size)`, minimum 1. -/
def blocksNeededFor (bs size : Nat) : Nat :=
  if (size + bs - 1) / bs = 0 then 1 else (size + bs - 1) / bs

/-- `diskput_main`: validate the superblock, load the FAT, split the
target path, ensure the directory exists (creating a single-level
subdirectory if needed), allocate the file's blocks, write the data,
insert the directory entry into the first free slot, and finally write
the FAT back. -/
def diskput (d : Disk) (fuel : Nat) (tgt_path data : List Nat) :
    PutResult × Disk :=
  match readSuperblock d with
  | none => (.formatError, d)
  | some sb =>
    let fat := loadFat d sb
    let dir_path := (splitTargetPut tgt_path).1
    let filename := (splitTargetPut tgt_path).2
    match ensure_simple_subdir_exists d sb fat fuel dir_path with
    | (.pathError, d1, _) => (.dirNotFound, d1)
    | (.noSpace, d1, _) => (.dirNotFound, d1)
    | (.dirFull, d1, _) => (.dirNotFound, d1)
    | (.diverge, d1, _) => (.diverge, d1)
    | (.ok isRoot startBlk, d1, fat1) =>
      let bn := blocksNeededFor sb.block_size data.length
      match allocate_blocks fat1 bn with
      | none => (.outOfSpace, d1)
      | some (blocks, fat2) =>
        let d2 := writeFileBlocks sb.block_size data d1 blocks 0
        let entry := newFileEntry filename (blocks.headD 0) bn data.length
        if isRoot then
          match findFreeRootSlot d2 sb with
          | none => (.dirFull, d2)
          | some j =>
            let d3 := writeBytes d2 (rootOffset sb + entrySize * j)
              (encodeEntry entry)
            (.ok, write_fat d3 sb fat2)
        else
          match insertEntryInChain d2 sb fat2 entry fuel startBlk with
          | (.inserted, d3) => (.ok, write_fat d3 sb fat2)
          | (.full, d3) => (.dirFull, d3)
          | (.corrupt, d3) => (.ioError, d3)
          | (.diverge, d3) => (.diverge, d3)

/-- Outcome of `diskget_main` (the extracted bytes stand for the host
output file's content). -/
inductive GetResult where
  | ok (bytes : List Nat)
  | formatError
  | notFound
  | ioError
  | diverge
deriving DecidableEq

/-- Map the data-copy loop's outcome to `diskget`'s. -/
def getOfRead : ReadResult → GetResult
  | .ok bytes => .ok bytes
  | .ioError => .ioError
  | .diverge => .diverge

/-- `diskget_main`: validate the superblock, load the FAT, split the
source path, resolve its directory part, look the file up by name in
the root region or the subdirectory chain, then copy
`file_size` bytes out along the FAT chain. -/
def diskget (d : Disk) (fuel : Nat) (src_path : List Nat) : GetResult :=
  match readSuperblock d with
  | none => .formatError
  | some sb =>
    let fat := loadFat d sb
    let dir_path := (splitTargetGet src_path).1
    let filename := (splitTargetGet src_path).2
    match resolve_directory_path d sb fat fuel dir_path with
    | .diverge => .diverge
    | .failed => .notFound
    | .rootDir =>
      match findFileIn (rootEntryList d sb) filename with
      | none => .notFound
      | some e =>
        getOfRead (readFileChain d sb fat fuel e.starting_block e.file_size)
    | .subdir blk =>
      match find_file_in_directory_chain d sb fat filename fuel blk with
      | .diverge => .diverge
      | .corrupt => .notFound
      | .absent => .notFound
      | .found e =>
        getOfRead (readFileChain d sb fat fuel e.starting_block e.file_size)

/-! ### Basic facts about byte reads and writes -/

theorem readBytes_length (d : Disk) (off len : Nat) :
    (readBytes d off len).length = len := by
  simp [readBytes]

theorem readBytes_getElem (d : Disk) (off len i : Nat)
    (h : i < (readBytes d off len).length) :
    (readBytes d off len)[i] = readByte d (off + i) := by
  simp [readBytes]

theorem readByte_lt (d : Disk) (a : Nat) : readByte d a < 256 :=
  Nat.mod_lt _ (by omega)

theorem writeBytes_apply (d : Disk) (off : Nat) (l : List Nat) (a : Nat) :
    writeBytes d off l a =
      if off ≤ a ∧ a < off + l.length then l.getD (a - off) 0 else d a := rfl

theorem readByte_writeBytes_lt (d : Disk) (off : Nat) (l : List Nat)
    (a : Nat) (h : a < off) : readByte (writeBytes d off l) a = readByte d a := by
  simp only [readByte, writeBytes_apply]
  rw [if_neg (by omega)]

theorem readByte_writeBytes_ge (d : Disk) (off : Nat) (l : List Nat)
    (a : Nat) (h : off + l.length ≤ a) :
    readByte (writeBytes d off l) a = readByte d a := by
  simp only [readByte, writeBytes_apply]
  rw [if_neg (by omega)]

theorem readByte_writeBytes_in (d : Disk) (off : Nat) (l : List Nat)
    (i : Nat) (h : i < l.length) :
    readByte (writeBytes d off l) (off + i) = l.getD i 0 % 256 := by
  simp only [readByte, writeBytes_apply]
  rw [if_pos (by omega), Nat.add_sub_cancel_left]

theorem readBytes_ext (d d' : Disk) (off len : Nat)
    (h : ∀ i, i < len → readByte d (off + i) = readByte d' (off + i)) :
    readBytes d off len = readBytes d' off len := by
  unfold readBytes
  exact List.map_congr_left (fun i hi => h i (List.mem_range.mp hi))

theorem readBytes_writeBytes_disjoint (d : Disk) (off : Nat) (l : List Nat)
    (off2 len : Nat) (h : off2 + len ≤ off ∨ off + l.length ≤ off2) :
    readBytes (writeBytes d off l) off2 len = readBytes d off2 len := by
  refine readBytes_ext _ _ _ _ (fun i hi => ?_)
  rcases h with h | h
  · exact readByte_writeBytes_lt _ _ _ _ (by omega)
  · exact readByte_writeBytes_ge _ _ _ _ (by omega)

theorem readBytes_writeBytes_self (d : Disk) (off : Nat) (l : List Nat)
    (hb : ∀ b ∈ l, b < 256) :
    readBytes (writeBytes d off l) off l.length = l := by
  refine List.ext_getElem (by simp [readBytes_length]) (fun i h1 h2 => ?_)
  rw [readBytes_getElem _ _ _ _ h1,
    readByte_writeBytes_in _ _ _ _ h2]
  rw [List.getD_eq_getElem _ _ h2]
  exact Nat.mod_eq_of_lt (hb _ (List.getElem_mem h2))

/-! ### Big-endian codec facts -/

theorem enc32_length (v : Nat) : (enc32 v).length = 4 := rfl

theorem enc32_bytes_lt (v : Nat) : ∀ b ∈ enc32 v, b < 256 := by
  intro b hb
  simp only [enc32, List.mem_cons, List.mem_singleton, List.not_mem_nil,
    or_false] at hb
  rcases hb with h | h | h | h <;> subst h <;> exact Nat.mod_lt _ (by omega)

theorem be32_enc32 (v : Nat) (h : v < 4294967296) : be32 (enc32 v) = v := by
  show ((v / 16777216 % 256 * 256 + v / 65536 % 256) * 256 + v / 256 % 256) *
      256 + v % 256 = v
  omega

theorem be32_lt (b : List Nat) (h : ∀ x ∈ b, x < 256) (hlen : b.length = 4) :
    be32 b < 4294967296 := by
  match b, hlen with
  | [a, b1, c, e], _ =>
    have ha := h a (by simp)
    have hb1 := h b1 (by simp)
    have hc := h c (by simp)
    have he := h e (by simp)
    show ((a * 256 + b1) * 256 + c) * 256 + e < 4294967296
    omega

/-! ### The allocation algorithm -/

/-- The indices of the free FAT entries, in ascending order. -/
def freeIndices (fat : List Nat) : List Nat :=
  (List.range fat.length).filter (fun k => fat.getD k 0 == 0)

theorem collectFreeGo_eq_take (fat : List Nat) :
    ∀ l n, collectFreeGo fat l n =
      (l.filter (fun k => fat.getD k 0 == 0)).take n := by
  intro l
  induction l with
  | nil => intro n; simp [collectFreeGo]
  | cons i rest ih =>
    intro n
    rw [collectFreeGo, List.filter_cons]
    rcases Nat.eq_zero_or_pos n with hn | hn
    · subst hn
      simp
    · obtain ⟨k, rfl⟩ : ∃ k, n = k + 1 := ⟨n - 1, by omega⟩
      rw [if_neg (by omega)]
      by_cases hfree : fat.getD i 0 = 0
      · rw [if_pos hfree, if_pos (by simpa using hfree),
          List.take_succ_cons, Nat.add_sub_cancel, ih k]
      · rw [if_neg hfree, if_neg (by simpa using hfree), ih (k + 1)]

theorem collectFree_eq (fat : List Nat) (n : Nat) :
    collectFree fat n = (freeIndices fat).take n := by
  rw [collectFree, collectFreeGo_eq_take, freeIndices]

theorem freeIndices_sorted (fat : List Nat) :
    (freeIndices fat).Pairwise (· < ·) :=
  (List.pairwise_lt_range _).filter _

theorem collectFree_pairwise (fat : List Nat) (n : Nat) :
    (collectFree fat n).Pairwise (· < ·) := by
  rw [collectFree_eq]
  exact (freeIndices_sorted fat).sublist (List.take_sublist _ _)

theorem collectFree_nodup (fat : List Nat) (n : Nat) :
    (collectFree fat n).Nodup :=
  (collectFree_pairwise fat n).imp Nat.ne_of_lt

theorem mem_freeIndices (fat : List Nat) (x : Nat) :
    x ∈ freeIndices fat ↔ x < fat.length ∧ fat.getD x 0 = 0 := by
  simp [freeIndices, List.mem_filter, List.mem_range]

theorem mem_collectFree (fat : List Nat) (n x : Nat)
    (h : x ∈ collectFree fat n) : x < fat.length ∧ fat.getD x 0 = 0 := by
  rw [collectFree_eq] at h
  exact (mem_freeIndices fat x).mp (List.mem_of_mem_take h)

theorem collectFree_length (fat : List Nat) (n : Nat) :
    (collectFree fat n).length = min n (freeIndices fat).length := by
  rw [collectFree_eq, List.length_take]

/-- `List.getD` through `List.set`. -/
theorem getD_set (l : List Nat) (i v k : Nat) :
    (l.set i v).getD k 0 =
      if k = i ∧ i < l.length then v else l.getD k 0 := by
  by_cases hk : k = i ∧ i < l.length
  · rw [if_pos hk, hk.1, List.getD_eq_getElem _ _ (by simpa using hk.2),
      List.getElem_set_self (by simpa using hk.2)]
  · rw [if_neg hk]
    by_cases hki : k = i
    · have hge : l.length ≤ i := by
        rcases Nat.lt_or_ge i l.length with h | h
        · exact absurd ⟨hki, h⟩ hk
        · exact h
      rw [List.set_eq_of_length_le hge]
    · simp only [List.getD, List.get?_eq_getElem?]
      rw [List.getElem?_set_ne (fun h => hki h.symm)]

theorem linkChain_length (fat : List Nat) (bs : List Nat) :
    (linkChain fat bs).length = fat.length := by
  induction bs generalizing fat with
  | nil => rfl
  | cons b rest ih =>
    cases rest with
    | nil => simp [linkChain]
    | cons b' rest' =>
      rw [linkChain, ih]
      simp

theorem linkChain_getD_not_mem (fat : List Nat) (bs : List Nat) (k : Nat)
    (h : k ∉ bs) : (linkChain fat bs).getD k 0 = fat.getD k 0 := by
  induction bs generalizing fat with
  | nil => rfl
  | cons b rest ih =>
    cases rest with
    | nil =>
      have hkb : k ≠ b := by simpa using h
      rw [linkChain, getD_set, if_neg (by tauto)]
    | cons b' rest' =>
      have hkb : k ≠ b := fun hh => h (hh ▸ List.mem_cons_self _ _)
      have hkrest : k ∉ b' :: rest' := fun hh => h (List.mem_cons_of_mem _ hh)
      rw [linkChain, ih _ hkrest, getD_set, if_neg (by tauto)]

theorem linkChain_getD_link (fat : List Nat) (bs : List Nat)
    (hnd : bs.Nodup) (hlt : ∀ b ∈ bs, b < fat.length) :
    ∀ j, j + 1 < bs.length →
      (linkChain fat bs).getD (bs.getD j 0) 0 = bs.getD (j + 1) 0 := by
  induction bs generalizing fat with
  | nil => intro j hj; simp at hj
  | cons b rest ih =>
    cases rest with
    | nil => intro j hj; simp at hj
    | cons b' rest' =>
      intro j hj
      rw [linkChain]
      cases j with
      | zero =>
        have hb : b ∉ b' :: rest' := (List.nodup_cons.mp hnd).1
        rw [List.getD_cons_zero, List.getD_cons_succ, List.getD_cons_zero,
          linkChain_getD_not_mem _ _ _ hb, getD_set,
          if_pos ⟨rfl, hlt b (List.mem_cons_self _ _)⟩]
      | succ j' =>
        rw [List.getD_cons_succ, List.getD_cons_succ]
        refine ih (fat.set b b') (List.nodup_cons.mp hnd).2
          (fun x hx => by
            rw [List.length_set]
            exact hlt x (List.mem_cons_of_mem _ hx)) j' (by simpa using hj)

theorem linkChain_getD_last (fat : List Nat) (bs : List Nat)
    (hne : bs ≠ []) (hlt : ∀ b ∈ bs, b < fat.length) :
    (linkChain fat bs).getD (bs.getLast hne) 0 = fatEOF := by
  induction bs generalizing fat with
  | nil => exact absurd rfl hne
  | cons b rest ih =>
    cases rest with
    | nil =>
      rw [linkChain]
      simp only [List.getLast_singleton]
      rw [getD_set, if_pos ⟨rfl, hlt b (List.mem_cons_self _ _)⟩]
    | cons b' rest' =>
      rw [linkChain, List.getLast_cons (by simp)]
      exact ih (fat.set b b') (by simp) (fun x hx => by
        rw [List.length_set]
        exact hlt x (List.mem_cons_of_mem _ hx))

/-! ### Claim C4: allocation is pure first-fit by index -/

/-- **C4**: `allocate_blocks(n)` is pure first-fit by index: it collects
exactly the `n` lowest-indexed free FAT entries in ascending order, it
fails precisely when fewer than `n` free entries exist anywhere in the
table, and on success it links the collected indices into a chain in
discovery order ending in the `0xFFFFFFFF` sentinel while leaving every
other entry of the table unchanged.  The embedded function — like the C
function, which receives no file handle — acts only on the in-memory
table; the on-disk FAT is written only by the separate `write_fat`. -/
theorem allocate_blocks_first_fit (fat : List Nat) (n : Nat) (hn : 1 ≤ n) :
    (allocate_blocks fat n = none ↔ (freeIndices fat).length < n) ∧
    (∀ out fat', allocate_blocks fat n = some (out, fat') →
      out = (freeIndices fat).take n ∧
      out.length = n ∧
      out ≠ [] ∧
      (∀ j, j + 1 < n → fat'.getD (out.getD j 0) 0 = out.getD (j + 1) 0) ∧
      (∀ hne : out ≠ [], fat'.getD (out.getLast hne) 0 = fatEOF) ∧
      (∀ k, k ∉ out → fat'.getD k 0 = fat.getD k 0) ∧
      fat'.length = fat.length) := by
  have hlen := collectFree_length fat n
  constructor
  · unfold allocate_blocks
    constructor
    · intro h
      by_cases hc : (collectFree fat n).length < n
      · omega
      · simp only [if_neg hc] at h
        exact absurd h (by simp)
    · intro h
      rw [if_pos (by omega)]
  · intro out fat' h
    unfold allocate_blocks at h
    by_cases hc : (collectFree fat n).length < n
    · rw [if_pos hc] at h
      exact absurd h (by simp)
    · rw [if_neg hc] at h
      obtain ⟨rfl, rfl⟩ : out = collectFree fat n ∧
          fat' = linkChain fat (collectFree fat n) := by
        have hh := (Option.some.injEq _ _).mp h
        exact ⟨(congrArg Prod.fst hh).symm, (congrArg Prod.snd hh).symm⟩
      have houtlen : (collectFree fat n).length = n := by omega
      have hnd := collectFree_nodup fat n
      have hbound : ∀ b ∈ collectFree fat n, b < fat.length :=
        fun b hb => (mem_collectFree fat n b hb).1
      refine ⟨collectFree_eq fat n, houtlen, ?_, ?_, ?_, ?_, ?_⟩
      · intro hnil
        rw [hnil] at houtlen
        simp at houtlen
        omega
      · intro j hj
        exact linkChain_getD_link fat _ hnd hbound j (by omega)
      · intro hne
        exact linkChain_getD_last fat _ hne hbound
      · intro k hk
        exact linkChain_getD_not_mem fat _ k hk
      · exact linkChain_length fat _

/-- Witness for C4 at a concrete table: `allocate_blocks [1,0,0,1,0] 2`
returns the two lowest free indices `[1,2]`. -/
theorem allocate_blocks_first_fit_witness :
    ([1, 2] : List Nat) = (freeIndices [1, 0, 0, 1, 0]).take 2 :=
  ((allocate_blocks_first_fit [1, 0, 0, 1, 0] 2 (by decide)).2
    [1, 2] [1, 2, 4294967295, 1, 0] (by decide)).1

/-! ### Bounded name comparison -/

theorem getD_drop (l : List Nat) (m i : Nat) :
    (l.drop m).getD i 0 = l.getD (m + i) 0 := by
  simp [List.getD, List.getElem?_drop]

theorem strncmpEq_congr (n : Nat) :
    ∀ a b a' b' : List Nat,
      (∀ i, i < n → a.getD i 0 = a'.getD i 0) →
      (∀ i, i < n → b.getD i 0 = b'.getD i 0) →
      strncmpEq a b n = strncmpEq a' b' n := by
  induction n with
  | zero => intro a b a' b' _ _; rfl
  | succ n ih =>
    intro a b a' b' ha hb
    have h0a : a.getD 0 0 = a'.getD 0 0 := ha 0 (by omega)
    have h0b : b.getD 0 0 = b'.getD 0 0 := hb 0 (by omega)
    rw [strncmpEq, strncmpEq, h0a, h0b]
    by_cases he : a'.getD 0 0 = b'.getD 0 0
    · rw [if_pos he, if_pos he]
      by_cases hz : a'.getD 0 0 = 0
      · rw [if_pos hz, if_pos hz]
      · rw [if_neg hz, if_neg hz]
        refine ih _ _ _ _ (fun i hi => ?_) (fun i hi => ?_)
        · rw [getD_drop, getD_drop]
          exact ha (1 + i) (by omega)
        · rw [getD_drop, getD_drop]
          exact hb (1 + i) (by omega)
    · rw [if_neg he, if_neg he]

theorem strncmpEq_self (n : Nat) : ∀ f : List Nat, strncmpEq f f n = true := by
  induction n with
  | zero => intro f; rfl
  | succ n ih =>
    intro f
    rw [strncmpEq, if_pos rfl]
    by_cases hz : f.getD 0 0 = 0
    · rw [if_pos hz]
    · rw [if_neg hz]
      exact ih _

/-! ### Claim C8: filename matching is bounded to the 31-byte field -/

/-- **C8**: the name comparison used by path resolution and file lookup
(`strncmp(entry.filename, query, 31) == 0`) inspects at most the first
31 bytes of each side, and an entry whose filename exactly fills the
31-byte field (no trailing terminator anywhere in it) compares equal to
a query string consisting of the same 31 characters. -/
theorem strncmp_bounded_match :
    (∀ a b a' b' : List Nat,
      (∀ i, i < 31 → a.getD i 0 = a'.getD i 0) →
      (∀ i, i < 31 → b.getD i 0 = b'.getD i 0) →
      strncmpEq a b 31 = strncmpEq a' b' 31) ∧
    (∀ field : List Nat, field.length = 31 → (∀ c ∈ field, c ≠ 0) →
      strncmpEq field field 31 = true) := by
  exact ⟨strncmpEq_congr 31, fun field _ _ => strncmpEq_self 31 field⟩

/-- Witness for C8: a field of 31 `'a'` bytes matches the same 31-byte
query even though no terminator is present. -/
theorem strncmp_bounded_match_witness :
    strncmpEq (List.replicate 31 97) (List.replicate 31 97) 31 = true :=
  strncmp_bounded_match.2 (List.replicate 31 97) (by decide) (by decide)

/-! ### Claim C9: listing honours the status bits -/

/-- **C9**: `print_dir_entry` omits every entry whose in-use bit (bit 0)
is clear, and reports the type of each emitted entry exactly from the
status byte: `F` precisely for an in-use entry with the file bit
(bit 1) set, `D` precisely for an in-use entry with the file bit clear
and the directory bit (bit 2) set, and nothing otherwise. -/
theorem listing_status_bits (e : DirEntry) :
    (print_dir_entry e = none ↔
      (¬ e.status.testBit 0 ∨ (¬ e.status.testBit 1 ∧ ¬ e.status.testBit 2))) ∧
    (print_dir_entry e = some .file ↔
      e.status.testBit 0 ∧ e.status.testBit 1) ∧
    (print_dir_entry e = some .dir ↔
      e.status.testBit 0 ∧ ¬ e.status.testBit 1 ∧ e.status.testBit 2) := by
  unfold print_dir_entry
  by_cases h0 : e.status.testBit 0 <;> by_cases h1 : e.status.testBit 1 <;>
    by_cases h2 : e.status.testBit 2 <;> simp [h0, h1, h2]

/-- Witness for C9: status `0x05` (in use + directory) is listed as a
directory. -/
theorem listing_status_bits_witness :
    print_dir_entry (dotEntry 3) = some .dir :=
  (listing_status_bits (dotEntry 3)).2.2.mpr (by decide)

/-! ### Claim C10: created names use at most 30 bytes, byte 31 is NUL -/

theorem getD_replicate_zero (n k : Nat) :
    (List.replicate n 0).getD k 0 = 0 := by
  simp only [List.getD, List.get?_eq_getElem?, List.getElem?_replicate]
  split <;> rfl

theorem nameField_eq (s : List Nat) :
    nameField s = s.take 30 ++ List.replicate (31 - min 30 s.length) 0 := by
  unfold nameField
  rw [List.take_append_eq_append_take, List.take_take, List.take_replicate]
  have e1 : min 31 30 = 30 := rfl
  rw [e1, List.length_take]
  congr 2
  omega

theorem nameField_length (s : List Nat) : (nameField s).length = 31 := by
  rw [nameField_eq]
  simp only [List.length_append, List.length_take, List.length_replicate]
  omega

/-- **C10**: every directory entry this system creates — the stored
file's entry, the new subdirectory's root entry, and the `.` entry —
keeps the name in at most the first 30 bytes of the 31-byte filename
field: the 31st byte (index 30) is always the NUL terminator, the field
only depends on the first 30 bytes of the supplied name (longer names
are silently truncated, not rejected), and the `diskput` filename
buffer itself keeps at most 30 bytes of the caller-supplied target
name. -/
theorem created_names_truncated (name : List Nat) (nb sblk bc fs : Nat) :
    (newFileEntry name sblk bc fs).filename = nameField name ∧
    (subdirEntry name nb).filename = nameField name ∧
    (dotEntry nb).filename = 46 :: List.replicate 30 0 ∧
    (nameField name).length = 31 ∧
    (nameField name).getD 30 0 = 0 ∧
    nameField name = nameField (name.take 30) ∧
    (∀ i, i < 30 → (nameField name).getD i 0 = (name.take 30).getD i 0) ∧
    (dotEntry nb).filename.getD 30 0 = 0 ∧
    (∀ p : List Nat, ((splitTargetPut p).2).length ≤ 30) := by
  refine ⟨rfl, rfl, rfl, nameField_length name, ?_, ?_, ?_, ?_, ?_⟩
  · rw [nameField_eq, List.getD_append_right _ _ _ _ (by
      rw [List.length_take]; omega)]
    exact getD_replicate_zero _ _
  · unfold nameField
    rw [List.take_take]
    simp
  · intro i hi
    rw [nameField_eq]
    by_cases hil : i < (name.take 30).length
    · rw [List.getD_append _ _ _ _ hil]
    · rw [List.getD_append_right _ _ _ _ (Nat.le_of_not_lt hil),
        List.getD_eq_default (name.take 30) 0 (Nat.le_of_not_lt hil),
        getD_replicate_zero]
  · show ((46 : Nat) :: List.replicate 30 0).getD 30 0 = 0
    decide
  · intro p
    unfold splitTargetPut
    rcases h : lastSlashIdx p with _ | k
    · simp [List.length_take]
    · simp [List.length_take]

/-- Witness for C10: a 31-character name is stored with its first 30
characters and a NUL in byte 31. -/
theorem created_names_truncated_witness :
    (newFileEntry (List.replicate 31 97) 4 1 3).filename =
      nameField (List.replicate 31 97) :=
  (created_names_truncated (List.replicate 31 97) 4 4 1 3).1

/-! ### Concrete test images

A small CSC360FS geometry used for witnesses and counterexamples:
`block_size = 64`, 16 blocks, FAT in block 1 (16 entries), root region
in blocks 2–3 (two 64-byte entries), data blocks from 4 on. -/

/-- Superblock bytes of the test geometry (padded to one block). -/
def tSbBytes : List Nat :=
  magicBytes ++ [0, 64] ++ [0, 0, 0, 16] ++ [0, 0, 0, 1] ++ [0, 0, 0, 1] ++
    [0, 0, 0, 2] ++ [0, 0, 0, 2] ++ List.replicate 34 0

/-- The test geometry's parsed superblock. -/
def tSb : Superblock :=
  { block_size := 64, block_count := 16, fat_start := 1, fat_blocks := 1
    root_start := 2, root_blocks := 2 }

/-- Serialize a 16-entry FAT. -/
def tFatBytes (entries : List Nat) : List Nat := (entries.map enc32).flatten

/-- A disk image from a byte list (bytes past the end read as zero). -/
def mkDisk (bytes : List Nat) : Disk := fun a => bytes.getD a 0

/-- Test image whose FAT entry 4 points to itself: blocks 0–3 reserved,
block 4 is a directory block whose chain loops forever. -/
def loopDisk : Disk :=
  mkDisk (tSbBytes ++
    tFatBytes ([1, 1, 1, 1, 4] ++ List.replicate 11 0) ++
    List.replicate (14 * 64) 0)

/-! ### Claim C2: chain traversal does not terminate on a cycle -/

/-- **C2** (refuting the claim as stated): `loopDisk` is a valid image
whose FAT entry 4 holds 4; walking the directory chain that starts at
block 4 never terminates, for every bound on the number of steps — the
C loops carry no hop counter, only an out-of-range check, so neither
`find_file_in_directory_chain` nor `list_directory_from_chain` ever
reports the structural error the claim requires; they loop forever. -/
theorem chain_walk_self_loop_diverges :
    readSuperblock loopDisk = some tSb ∧
    (loadFat loopDisk tSb).getD 4 0 = 4 ∧
    (∀ fuel, find_file_in_directory_chain loopDisk tSb
      (loadFat loopDisk tSb) [102] fuel 4 = .diverge) ∧
    (∀ fuel, list_directory_from_chain loopDisk tSb
      (loadFat loopDisk tSb) fuel 4 = .diverge) := by
  refine ⟨by decide, by decide, ?_, ?_⟩
  · intro fuel
    induction fuel with
    | zero => rfl
    | succ n ih =>
      rw [find_file_in_directory_chain, if_neg (by decide)]
      have h1 : findFileIn (blockEntryList loopDisk tSb 4) [102] = none := by
        decide
      rw [h1]
      have h2 : (loadFat loopDisk tSb).getD 4 0 = 4 := by decide
      rw [h2, if_neg (by decide)]
      exact ih
  · intro fuel
    induction fuel with
    | zero => rfl
    | succ n ih =>
      rw [list_directory_from_chain, if_neg (by decide)]
      have h2 : (loadFat loopDisk tSb).getD 4 0 = 4 := by decide
      rw [h2, if_neg (by decide)]
      rw [ih]

/-! ### Claim C7: the read loop along a FAT chain -/

/-- `blocks` is a well-formed chain under `fat`: nonempty, every block
index in range, consecutive blocks linked by the table, and the last
entry holding the sentinel. -/
def chainOk (fat : List Nat) : List Nat → Bool
  | [] => false
  | [b] => decide (b < fat.length) && decide (fat.getD b 0 = fatEOF)
  | b :: b' :: rest =>
    decide (b < fat.length) && decide (fat.getD b 0 = b') &&
      chainOk fat (b' :: rest)

/-- The bytes stored across the blocks of a chain, one full block
each. -/
def chainData (d : Disk) (sb : Superblock) (blocks : List Nat) : List Nat :=
  (blocks.map (fun b => readBytes d (b * sb.block_size) sb.block_size)).flatten

theorem chainOk_head_lt (fat : List Nat) (b : Nat) (t : List Nat)
    (h : chainOk fat (b :: t) = true) : b < fat.length := by
  cases t with
  | nil => exact of_decide_eq_true (Bool.and_elim_left h)
  | cons b' rest =>
    exact of_decide_eq_true (Bool.and_elim_left (Bool.and_elim_left h))

theorem readBytes_take (d : Disk) (off n k : Nat) :
    (readBytes d off n).take k = readBytes d off (min k n) := by
  unfold readBytes
  rw [← List.map_take, List.take_range]

/-- Core lemma behind C7: the data loop along a well-formed chain. -/
theorem readFileChain_chain_core (d : Disk) (sb : Superblock)
    (fat : List Nat) :
    ∀ (blocks : List Nat) (fuel size : Nat), chainOk fat blocks = true →
      fat.length ≤ fatEOF → blocks.length < fuel →
      readFileChain d sb fat fuel (blocks.headD 0) size =
        .ok ((chainData d sb blocks).take size) := by
  intro blocks
  induction blocks with
  | nil => intro fuel size h; simp [chainOk] at h
  | cons b t ih =>
    intro fuel size hok hlen hfuel
    obtain ⟨f, rfl⟩ : ∃ f, fuel = f + 1 := ⟨fuel - 1, by omega⟩
    have hb : b < fat.length := chainOk_head_lt fat b t hok
    rw [readFileChain]
    simp only [List.headD_cons]
    by_cases hsz : size = 0
    · rw [if_pos hsz, hsz, List.take_zero]
    · rw [if_neg hsz, if_neg (by omega)]
      cases t with
      | nil =>
        have heof : fat.getD b 0 = fatEOF :=
          of_decide_eq_true (Bool.and_elim_right hok)
        have hchain : chainData d sb [b] =
            readBytes d (b * sb.block_size) sb.block_size := by
          simp [chainData]
        by_cases hrem : size - min size sb.block_size = 0
        · rw [if_pos hrem, hchain, readBytes_take]
        · have hmin : min size sb.block_size = sb.block_size := by omega
          rw [if_neg hrem, if_pos heof, hmin, hchain,
            List.take_of_length_le (by rw [readBytes_length]; omega)]
      | cons b' rest =>
        have hlink : fat.getD b 0 = b' :=
          of_decide_eq_true
            (Bool.and_elim_right (Bool.and_elim_left hok))
        have htail : chainOk fat (b' :: rest) = true :=
          Bool.and_elim_right hok
        have hchain : chainData d sb (b :: b' :: rest) =
            readBytes d (b * sb.block_size) sb.block_size ++
              chainData d sb (b' :: rest) := by
          simp [chainData]
        by_cases hrem : size - min size sb.block_size = 0
        · rw [if_pos hrem, hchain, List.take_append_eq_append_take,
            readBytes_take, readBytes_length]
          have hz : size - sb.block_size = 0 := by omega
          rw [hz, List.take_zero, List.append_nil]
        · have hne : ¬ fat.getD b 0 = fatEOF := by
            have hb' : b' < fat.length := chainOk_head_lt fat b' rest htail
            rw [hlink]
            omega
          rw [if_neg hrem, if_neg hne, hlink]
          have hrec := ih f (size - min size sb.block_size) htail hlen
            (by simp at hfuel ⊢; omega)
          simp only [List.headD_cons] at hrec
          rw [hrec, hchain, List.take_append_eq_append_take,
            readBytes_take, readBytes_length]
          have hmin : min size sb.block_size = sb.block_size := by omega
          rw [hmin]

/-- **C7**: along any well-formed FAT chain, the `diskget` data loop
reads `min(size_remaining, block_size)` bytes from each visited block
and returns successfully with the first `size` bytes stored on the
chain — also when the chain is *shorter* than the recorded size, in
which case the output is just the whole chain content: a truncated
read, never an error. -/
theorem readFileChain_reads_chain (d : Disk) (sb : Superblock)
    (fat : List Nat) :
    ∀ (blocks : List Nat) (fuel size : Nat), chainOk fat blocks = true →
      fat.length ≤ fatEOF → blocks.length < fuel →
      readFileChain d sb fat fuel (blocks.headD 0) size =
        .ok ((chainData d sb blocks).take size) :=
  readFileChain_chain_core d sb fat

/-- Test image with a well-formed two-block chain `4 → 5 → end`. -/
def chainDisk : Disk :=
  mkDisk (tSbBytes ++
    tFatBytes ([1, 1, 1, 1, 5, fatEOF] ++ List.replicate 10 0) ++
    List.replicate (14 * 64) 0)

/-- Witness for C7: asking for 999 bytes from the 2-block (128-byte)
chain at block 4 succeeds with the truncated content. -/
theorem readFileChain_reads_chain_witness :
    readFileChain chainDisk tSb (loadFat chainDisk tSb) 3
      (([4, 5] : List Nat).headD 0) 999 =
      .ok ((chainData chainDisk tSb [4, 5]).take 999) :=
  readFileChain_reads_chain chainDisk tSb (loadFat chainDisk tSb) [4, 5] 3 999
    (by decide) (by decide) (by decide)

/-! ### Tokenizer facts -/

theorem tokenizeAux_no_slash (t : List Nat) (h47 : (47 : Nat) ∉ t) :
    ∀ acc, acc ++ t ≠ [] → tokenizeAux acc t = [acc ++ t] := by
  induction t with
  | nil =>
    intro acc hne
    rw [tokenizeAux, if_neg (by simpa using hne)]
    simp
  | cons c rest ih =>
    intro acc _
    have hc : c ≠ 47 := fun h => h47 (h ▸ List.mem_cons_self _ _)
    rw [tokenizeAux, if_neg hc, ih (fun h => h47 (List.mem_cons_of_mem _ h))
      (acc ++ [c]) (by simp), List.append_assoc]
    rfl

theorem tokenizeAux_slash_split (a : List Nat) (h47 : (47 : Nat) ∉ a) :
    ∀ acc rest, acc ++ a ≠ [] →
      tokenizeAux acc (a ++ 47 :: rest) =
        (acc ++ a) :: tokenizeAux [] rest := by
  induction a with
  | nil =>
    intro acc rest hne
    rw [List.nil_append, tokenizeAux, if_pos rfl,
      if_neg (by simpa using hne)]
    simp
  | cons c a' ih =>
    intro acc rest _
    have hc : c ≠ 47 := fun h => h47 (h ▸ List.mem_cons_self _ _)
    rw [List.cons_append, tokenizeAux, if_neg hc,
      ih (fun h => h47 (List.mem_cons_of_mem _ h)) (acc ++ [c]) rest
        (by simp), List.append_assoc]
    rfl

theorem tokenize_single (a : List Nat) (h47 : (47 : Nat) ∉ a)
    (hne : a ≠ []) : tokenize a = [a] := by
  unfold tokenize
  rw [tokenizeAux_no_slash a h47 [] (by simpa using hne)]
  rfl

theorem tokenize_pair (a b : List Nat) (h47a : (47 : Nat) ∉ a)
    (h47b : (47 : Nat) ∉ b) (hnea : a ≠ []) (hneb : b ≠ []) :
    tokenize (a ++ 47 :: b) = [a, b] := by
  unfold tokenize
  rw [tokenizeAux_slash_split a h47a [] b (by simpa using hnea),
    tokenizeAux_no_slash b h47b [] (by simpa using hneb)]
  rfl

/-! ### Claim C5: path resolution -/

theorem findDirIn_used_dir (entries : List DirEntry) (c : List Nat)
    (e : DirEntry) (h : findDirIn entries c = some e) :
    isUsed e = true ∧ isDir e = true := by
  have hp := List.find?_some h
  unfold dirMatch at hp
  exact ⟨Bool.and_elim_left (Bool.and_elim_left hp),
    Bool.and_elim_right (Bool.and_elim_left hp)⟩

theorem findDirInChain_used_dir (d : Disk) (sb : Superblock)
    (fat : List Nat) (c : List Nat) :
    ∀ (fuel cur : Nat) (e : DirEntry),
      findDirInChain d sb fat c fuel cur = .found e →
      isUsed e = true ∧ isDir e = true := by
  intro fuel
  induction fuel with
  | zero => intro cur e h; exact absurd h (by rw [findDirInChain]; simp)
  | succ n ih =>
    intro cur e h
    rw [findDirInChain] at h
    by_cases hr : fat.length ≤ cur
    · rw [if_pos hr] at h
      exact absurd h (by simp)
    · rw [if_neg hr] at h
      rcases hf : findDirIn (blockEntryList d sb cur) c with _ | e'
      · rw [hf] at h
        by_cases he : fat.getD cur 0 = fatEOF
        · rw [if_pos he] at h
          exact absurd h (by simp)
        · rw [if_neg he] at h
          exact ih _ e h
      · rw [hf] at h
        simp only [ChainFind.found.injEq] at h
        exact h ▸ findDirIn_used_dir _ _ _ hf

theorem resolveComponents_nil (d : Disk) (sb : Superblock) (fat : List Nat)
    (fuel : Nat) (atRoot : Bool) (cur : Nat) :
    resolveComponents d sb fat fuel [] atRoot cur =
      if atRoot then .failed else .subdir cur := rfl

theorem resolveComponents_cons_root (d : Disk) (sb : Superblock)
    (fat : List Nat) (fuel : Nat) (c : List Nat) (rest : List (List Nat))
    (cur : Nat) :
    resolveComponents d sb fat fuel (c :: rest) true cur =
      match findDirIn (rootEntryList d sb) c with
      | none => .failed
      | some e =>
        resolveComponents d sb fat fuel rest false e.starting_block := rfl

theorem resolveComponents_cons_sub (d : Disk) (sb : Superblock)
    (fat : List Nat) (fuel : Nat) (c : List Nat) (rest : List (List Nat))
    (cur : Nat) :
    resolveComponents d sb fat fuel (c :: rest) false cur =
      match findDirInChain d sb fat c fuel cur with
      | .found e =>
        resolveComponents d sb fat fuel rest false e.starting_block
      | .absent => .failed
      | .corrupt => .failed
      | .diverge => .diverge := rfl

/-- **C5**: path resolution.  The empty path and exactly `"/"` resolve
to the root region with zero component steps (for every image and every
fuel).  Any other path is matched component by component against
in-use, directory-typed entries only — a match returned by the root
scan or by a chain scan always has the in-use bit and the directory bit
set, so a component is never matched against a file entry.  A first
component with no such match in the root region fails the whole
resolution, and a two-component path `/a/b` resolves exactly by first
matching `a` in the root region and then matching `b` inside `a`'s
chain, failing if either step fails. -/
theorem resolve_path_spec (d : Disk) (sb : Superblock) (fat : List Nat)
    (fuel : Nat) :
    (resolve_directory_path d sb fat fuel [] = .rootDir ∧
      resolve_directory_path d sb fat fuel [47] = .rootDir) ∧
    (∀ entries c e, findDirIn entries c = some e →
      isUsed e = true ∧ isDir e = true) ∧
    (∀ c f cur e, findDirInChain d sb fat c f cur = .found e →
      isUsed e = true ∧ isDir e = true) ∧
    (∀ a rest, (47 : Nat) ∉ a → a ≠ [] →
      tokenize (a ++ rest) = a :: tokenize rest →
      findDirIn (rootEntryList d sb) a = none →
      resolve_directory_path d sb fat fuel (47 :: (a ++ rest)) = .failed) ∧
    (∀ a b, (47 : Nat) ∉ a → (47 : Nat) ∉ b → a ≠ [] → b ≠ [] →
      resolve_directory_path d sb fat fuel (47 :: (a ++ 47 :: b)) =
        match findDirIn (rootEntryList d sb) a with
        | none => .failed
        | some e =>
          match findDirInChain d sb fat b fuel e.starting_block with
          | .found e' => .subdir e'.starting_block
          | .absent => .failed
          | .corrupt => .failed
          | .diverge => .diverge) := by
  refine ⟨⟨rfl, rfl⟩, findDirIn_used_dir,
    findDirInChain_used_dir d sb fat, ?_, ?_⟩
  · intro a rest h47 hne htok hnone
    unfold resolve_directory_path
    rw [if_neg (by
      rintro (h | h)
      · rcases a with _ | ⟨x, a'⟩
        · exact hne rfl
        · simp at h
      · simp at h)]
    rw [if_neg (by simp)]
    simp only [List.drop_succ_cons, List.drop_zero]
    rw [htok, resolveComponents_cons_root, hnone]
  · intro a b h47a h47b hnea hneb
    unfold resolve_directory_path
    rw [if_neg (by
      rintro (h | h)
      · rcases a with _ | ⟨x, a'⟩
        · exact hnea rfl
        · simp at h
      · simp at h)]
    rw [if_neg (by simp)]
    simp only [List.drop_succ_cons, List.drop_zero]
    rw [tokenize_pair a b h47a h47b hnea hneb]
    rcases hroot : findDirIn (rootEntryList d sb) a with _ | e
    · rw [resolveComponents_cons_root, hroot]
    · rw [resolveComponents_cons_root, hroot]
      show resolveComponents d sb fat fuel [b] false e.starting_block =
        match findDirInChain d sb fat b fuel e.starting_block with
        | .found e' => Resolved.subdir e'.starting_block
        | .absent => .failed
        | .corrupt => .failed
        | .diverge => .diverge
      rw [resolveComponents_cons_sub]
      rcases hchain : findDirInChain d sb fat b fuel e.starting_block with
        e' | _ | _ | _ <;> rfl

/-- Witness for C5 on a concrete image: `"/"` resolves to the root
region. -/
theorem resolve_path_spec_witness :
    resolve_directory_path loopDisk tSb (loadFat loopDisk tSb) 5 [47] =
      .rootDir :=
  (resolve_path_spec loopDisk tSb (loadFat loopDisk tSb) 5).1.2

/-! ### Directory-record codec facts -/

theorem padTo_length (l : List Nat) (n : Nat) : (padTo l n).length = n := by
  unfold padTo
  rw [List.length_append, List.length_take, List.length_replicate]
  omega

theorem padTo_eq_of_length (l : List Nat) (n : Nat) (h : l.length = n) :
    padTo l n = l := by
  unfold padTo
  rw [← h, List.take_length]
  simp

theorem encodeEntry_length (e : DirEntry) : (encodeEntry e).length = 64 := by
  unfold encodeEntry
  simp only [List.length_append, List.length_cons, List.length_nil,
    enc32_length, padTo_length]

theorem drop_append_exact (a b : List Nat) (n : Nat) (h : a.length = n) :
    (a ++ b).drop n = b := by
  subst h
  exact List.drop_left a b

theorem take_append_exact (a b : List Nat) (n : Nat) (h : a.length = n) :
    (a ++ b).take n = a := by
  subst h
  exact List.take_left a b

theorem be32_append (l rest : List Nat) (h : l.length = 4) :
    be32 (l ++ rest) = be32 l := by
  unfold be32
  rw [List.getD_append _ _ _ _ (by omega), List.getD_append _ _ _ _ (by omega),
    List.getD_append _ _ _ _ (by omega), List.getD_append _ _ _ _ (by omega)]

/-- Well-formed record fields: the byte fields have their exact on-disk
widths, the status is one byte, and the numeric fields fit in 32
bits. -/
def entryWf (e : DirEntry) : Prop :=
  e.status < 256 ∧ e.starting_block < 4294967296 ∧
    e.block_count < 4294967296 ∧ e.file_size < 4294967296 ∧
    e.create_time.length = 7 ∧ e.modify_time.length = 7 ∧
    e.filename.length = 31 ∧ e.unused.length = 6

theorem decode_encodeEntry (e : DirEntry) (hwf : entryWf e) :
    decodeEntry (encodeEntry e) = e := by
  obtain ⟨hs, hsb, hbc, hfs, hct, hmt, hfn, hun⟩ := hwf
  have hct' := padTo_eq_of_length _ _ hct
  have hmt' := padTo_eq_of_length _ _ hmt
  have hfn' := padTo_eq_of_length _ _ hfn
  have hun' := padTo_eq_of_length _ _ hun
  unfold encodeEntry
  have hd1 : (([e.status % 256] ++ enc32 e.starting_block ++
      enc32 e.block_count ++ enc32 e.file_size ++ padTo e.create_time 7 ++
      padTo e.modify_time 7 ++ padTo e.filename 31 ++
      padTo e.unused 6)).drop 1 =
      enc32 e.starting_block ++ (enc32 e.block_count ++ (enc32 e.file_size ++
        (padTo e.create_time 7 ++ (padTo e.modify_time 7 ++
          (padTo e.filename 31 ++ padTo e.unused 6))))) := by
    simp [List.append_assoc]
  have hd5 : (([e.status % 256] ++ enc32 e.starting_block ++
      enc32 e.block_count ++ enc32 e.file_size ++ padTo e.create_time 7 ++
      padTo e.modify_time 7 ++ padTo e.filename 31 ++
      padTo e.unused 6)).drop 5 =
      enc32 e.block_count ++ (enc32 e.file_size ++
        (padTo e.create_time 7 ++ (padTo e.modify_time 7 ++
          (padTo e.filename 31 ++ padTo e.unused 6)))) := by
    rw [show (5 : Nat) = 1 + 4 from rfl, ← List.drop_drop, hd1,
      drop_append_exact _ _ 4 (enc32_length _)]
  have hd9 : (([e.status % 256] ++ enc32 e.starting_block ++
      enc32 e.block_count ++ enc32 e.file_size ++ padTo e.create_time 7 ++
      padTo e.modify_time 7 ++ padTo e.filename 31 ++
      padTo e.unused 6)).drop 9 =
      enc32 e.file_size ++ (padTo e.create_time 7 ++ (padTo e.modify_time 7 ++
        (padTo e.filename 31 ++ padTo e.unused 6))) := by
    rw [show (9 : Nat) = 5 + 4 from rfl, ← List.drop_drop, hd5,
      drop_append_exact _ _ 4 (enc32_length _)]
  have hd13 : (([e.status % 256] ++ enc32 e.starting_block ++
      enc32 e.block_count ++ enc32 e.file_size ++ padTo e.create_time 7 ++
      padTo e.modify_time 7 ++ padTo e.filename 31 ++
      padTo e.unused 6)).drop 13 =
      padTo e.create_time 7 ++ (padTo e.modify_time 7 ++
        (padTo e.filename 31 ++ padTo e.unused 6)) := by
    rw [show (13 : Nat) = 9 + 4 from rfl, ← List.drop_drop, hd9,
      drop_append_exact _ _ 4 (enc32_length _)]
  have hd20 : (([e.status % 256] ++ enc32 e.starting_block ++
      enc32 e.block_count ++ enc32 e.file_size ++ padTo e.create_time 7 ++
      padTo e.modify_time 7 ++ padTo e.filename 31 ++
      padTo e.unused 6)).drop 20 =
      padTo e.modify_time 7 ++ (padTo e.filename 31 ++ padTo e.unused 6) := by
    rw [show (20 : Nat) = 13 + 7 from rfl, ← List.drop_drop, hd13,
      drop_append_exact _ _ 7 (padTo_length _ _)]
  have hd27 : (([e.status % 256] ++ enc32 e.starting_block ++
      enc32 e.block_count ++ enc32 e.file_size ++ padTo e.create_time 7 ++
      padTo e.modify_time 7 ++ padTo e.filename 31 ++
      padTo e.unused 6)).drop 27 =
      padTo e.filename 31 ++ padTo e.unused 6 := by
    rw [show (27 : Nat) = 20 + 7 from rfl, ← List.drop_drop, hd20,
      drop_append_exact _ _ 7 (padTo_length _ _)]
  have hd58 : (([e.status % 256] ++ enc32 e.starting_block ++
      enc32 e.block_count ++ enc32 e.file_size ++ padTo e.create_time 7 ++
      padTo e.modify_time 7 ++ padTo e.filename 31 ++
      padTo e.unused 6)).drop 58 = padTo e.unused 6 := by
    rw [show (58 : Nat) = 27 + 31 from rfl, ← List.drop_drop, hd27,
      drop_append_exact _ _ 31 (padTo_length _ _)]
  unfold decodeEntry
  rw [hd1, hd5, hd9, hd13, hd20, hd27, hd58]
  rw [be32_append _ _ (enc32_length _), be32_append _ _ (enc32_length _),
    be32_append _ _ (enc32_length _), be32_enc32 _ hsb, be32_enc32 _ hbc,
    be32_enc32 _ hfs]
  rw [take_append_exact _ _ 7 (padTo_length _ _),
    take_append_exact _ _ 7 (padTo_length _ _),
    take_append_exact _ _ 31 (padTo_length _ _),
    List.take_of_length_le (by rw [padTo_length])]
  have hstat : ([e.status % 256] ++ enc32 e.starting_block ++
      enc32 e.block_count ++ enc32 e.file_size ++ padTo e.create_time 7 ++
      padTo e.modify_time 7 ++ padTo e.filename 31 ++
      padTo e.unused 6).getD 0 0 = e.status % 256 := by
    simp [List.append_assoc]
  rw [hstat, Nat.mod_eq_of_lt hs, hct', hmt', hfn', hun']

theorem mem_padTo (l : List Nat) (n : Nat) (b : Nat)
    (h : b ∈ padTo l n) : b ∈ l ∨ b = 0 := by
  unfold padTo at h
  rcases List.mem_append.mp h with h | h
  · exact Or.inl (List.mem_of_mem_take h)
  · exact Or.inr (List.eq_of_mem_replicate h)

theorem encodeEntry_bytes_lt (e : DirEntry)
    (hfn : ∀ b ∈ e.filename, b < 256) (hct : ∀ b ∈ e.create_time, b < 256)
    (hmt : ∀ b ∈ e.modify_time, b < 256) (hun : ∀ b ∈ e.unused, b < 256) :
    ∀ b ∈ encodeEntry e, b < 256 := by
  intro b hb
  unfold encodeEntry at hb
  simp only [List.append_assoc, List.mem_append, List.mem_singleton] at hb
  rcases hb with h | h | h | h | h | h | h | h
  · exact h ▸ Nat.mod_lt _ (by omega)
  · exact enc32_bytes_lt _ b h
  · exact enc32_bytes_lt _ b h
  · exact enc32_bytes_lt _ b h
  · rcases mem_padTo _ _ _ h with h | h
    · exact hct b h
    · omega
  · rcases mem_padTo _ _ _ h with h | h
    · exact hmt b h
    · omega
  · rcases mem_padTo _ _ _ h with h | h
    · exact hfn b h
    · omega
  · rcases mem_padTo _ _ _ h with h | h
    · exact hun b h
    · omega

/-! ### First-match scans over index ranges -/

theorem find?_range_first (p : Nat → Bool) :
    ∀ n j, (List.range n).find? p = some j → ∀ i, i < j → p i = false := by
  intro n
  induction n with
  | zero => intro j h; simp at h
  | succ n ih =>
    intro j h i hi
    rw [List.range_succ, List.find?_append] at h
    rcases hf : (List.range n).find? p with _ | j'
    · rw [hf] at h
      have hj : j = n := by
        by_cases hp : p n = true
        · simpa [List.find?, hp, Option.or] using h.symm
        · simp [List.find?, Bool.eq_false_iff.mpr hp, Option.or] at h
      subst hj
      have hall := List.find?_eq_none.mp hf i (List.mem_range.mpr hi)
      exact Bool.eq_false_iff.mpr hall
    · rw [hf] at h
      have : j' = j := by simpa [Option.or] using h
      exact ih j' hf i (this ▸ hi)

theorem find?_range_eq_some_of (p : Nat → Bool) :
    ∀ n j, j < n → p j = true → (∀ i, i < j → p i = false) →
      (List.range n).find? p = some j := by
  intro n
  induction n with
  | zero => intro j hj; omega
  | succ n ih =>
    intro j hj hpj hbefore
    rw [List.range_succ, List.find?_append]
    rcases Nat.lt_or_ge j n with h | h
    · rw [ih j h hpj hbefore]
      rfl
    · have hjn : j = n := by omega
      rw [← hjn]
      have hnone : (List.range j).find? p = none :=
        List.find?_eq_none.mpr (fun x hx => by
          rw [hbefore x (List.mem_range.mp hx)]
          simp)
      rw [hnone]
      simp [List.find?, hpj, Option.or]

/-! ### Matching a freshly written name field -/

theorem strncmp_padded (n : Nat) :
    ∀ (s : List Nat) (k : Nat), s.length < n → 0 < k →
      (∀ c ∈ s, c ≠ 0) →
      strncmpEq (s ++ List.replicate k 0) s n = true := by
  induction n with
  | zero => intro s k h; omega
  | succ n ih =>
    intro s k hlen hk hz
    cases s with
    | nil =>
      obtain ⟨k', rfl⟩ : ∃ k', k = k' + 1 := ⟨k - 1, by omega⟩
      rw [strncmpEq]
      simp [List.replicate_succ]
    | cons c s' =>
      have hc : c ≠ 0 := hz c (List.mem_cons_self _ _)
      rw [strncmpEq]
      have e1 : ((c :: s') ++ List.replicate k 0).getD 0 0 = c := rfl
      have e2 : (c :: s').getD 0 0 = c := rfl
      have e3 : ((c :: s') ++ List.replicate k 0).drop 1 =
        s' ++ List.replicate k 0 := rfl
      have e4 : (c :: s').drop 1 = s' := rfl
      rw [e1, e2, if_pos rfl, if_neg hc, e3, e4]
      exact ih s' k (by simpa using hlen) hk
        (fun x hx => hz x (List.mem_cons_of_mem _ hx))

theorem strncmpEq_nameField (s : List Nat) (h30 : s.length ≤ 30)
    (hz : ∀ c ∈ s, c ≠ 0) : strncmpEq (nameField s) s 31 = true := by
  rw [nameField_eq, List.take_of_length_le h30]
  exact strncmp_padded 31 s _ (by omega) (by omega) hz

/-! ### Reading entries back through writes -/

theorem readEntryAt_writeBytes_disjoint (d : Disk) (off : Nat)
    (l : List Nat) (off2 : Nat)
    (h : off2 + entrySize ≤ off ∨ off + l.length ≤ off2) :
    readEntryAt (writeBytes d off l) off2 = readEntryAt d off2 := by
  unfold readEntryAt
  rw [readBytes_writeBytes_disjoint _ _ _ _ _ h]

theorem readEntryAt_write_self (d : Disk) (off : Nat) (e : DirEntry)
    (hwf : entryWf e) (hb : ∀ b ∈ encodeEntry e, b < 256) :
    readEntryAt (writeBytes d off (encodeEntry e)) off = e := by
  unfold readEntryAt
  have h64 : entrySize = (encodeEntry e).length := (encodeEntry_length e).symm
  rw [h64, readBytes_writeBytes_self _ _ _ hb, decode_encodeEntry e hwf]

/-! ### The new directory block -/

theorem newDirBlockBytes_length (sb : Superblock) (nb : Nat) :
    (newDirBlockBytes sb nb).length = entriesPerBlock sb * entrySize := by
  unfold newDirBlockBytes
  rw [List.length_take, List.length_append, encodeEntry_length,
    List.length_replicate]
  omega

theorem dotEntry_wf (nb : Nat) (h : nb < 4294967296) : entryWf (dotEntry nb) := by
  refine ⟨by simp [dotEntry], h, by simp [dotEntry], by simp [dotEntry],
    ?_, ?_, ?_, ?_⟩ <;> simp [dotEntry]

theorem dotEntry_bytes_lt (nb : Nat) : ∀ b ∈ encodeEntry (dotEntry nb), b < 256 := by
  refine encodeEntry_bytes_lt _ ?_ ?_ ?_ ?_ <;> intro b hb <;>
    simp only [dotEntry] at hb
  · rcases List.mem_cons.mp hb with h | h
    · omega
    · have := List.eq_of_mem_replicate h
      omega
  · have := List.eq_of_mem_replicate hb
    omega
  · have := List.eq_of_mem_replicate hb
    omega
  · have := List.eq_of_mem_replicate hb
    omega

theorem newDirBlockBytes_bytes_lt (sb : Superblock) (nb : Nat) :
    ∀ b ∈ newDirBlockBytes sb nb, b < 256 := by
  intro b hb
  unfold newDirBlockBytes at hb
  rcases List.mem_append.mp (List.mem_of_mem_take hb) with h | h
  · exact dotEntry_bytes_lt nb b h
  · have := List.eq_of_mem_replicate h
    omega

theorem nameField_bytes_lt (s : List Nat) (h : ∀ c ∈ s, c < 256) :
    ∀ b ∈ nameField s, b < 256 := by
  intro b hb
  rw [nameField_eq] at hb
  rcases List.mem_append.mp hb with h' | h'
  · exact h b (List.mem_of_mem_take h')
  · have := List.eq_of_mem_replicate h'
    omega

theorem subdirEntry_wf (dn : List Nat) (nb : Nat) (h : nb < 4294967296) :
    entryWf (subdirEntry dn nb) := by
  refine ⟨by simp [subdirEntry], h, by simp [subdirEntry],
    by simp [subdirEntry], ?_, ?_, ?_, ?_⟩ <;>
    simp [subdirEntry, nameField_length]

theorem subdirEntry_bytes_lt (dn : List Nat) (nb : Nat)
    (h : ∀ c ∈ dn, c < 256) :
    ∀ b ∈ encodeEntry (subdirEntry dn nb), b < 256 := by
  refine encodeEntry_bytes_lt _ ?_ ?_ ?_ ?_ <;> intro b hb <;>
    simp only [subdirEntry] at hb
  · exact nameField_bytes_lt dn h b hb
  · have := List.eq_of_mem_replicate hb
    omega
  · have := List.eq_of_mem_replicate hb
    omega
  · have := List.eq_of_mem_replicate hb
    omega

theorem newFileEntry_wf (fn : List Nat) (sblk bc fs : Nat)
    (h1 : sblk < 4294967296) (h2 : bc < 4294967296) (h3 : fs < 4294967296) :
    entryWf (newFileEntry fn sblk bc fs) := by
  refine ⟨by simp [newFileEntry], h1, h2, h3, ?_, ?_, ?_, ?_⟩ <;>
    simp [newFileEntry, nameField_length]

theorem newFileEntry_bytes_lt (fn : List Nat) (sblk bc fs : Nat)
    (h : ∀ c ∈ fn, c < 256) :
    ∀ b ∈ encodeEntry (newFileEntry fn sblk bc fs), b < 256 := by
  refine encodeEntry_bytes_lt _ ?_ ?_ ?_ ?_ <;> intro b hb <;>
    simp only [newFileEntry] at hb
  · exact nameField_bytes_lt fn h b hb
  · have := List.eq_of_mem_replicate hb
    omega
  · have := List.eq_of_mem_replicate hb
    omega
  · have := List.eq_of_mem_replicate hb
    omega

/-! ### Claim C6: subdirectory creation -/

theorem readBytes_writeBytes_prefix (d : Disk) (off : Nat) (l : List Nat)
    (k : Nat) (hk : k ≤ l.length) (hb : ∀ b ∈ l, b < 256) :
    readBytes (writeBytes d off l) off k = l.take k := by
  refine List.ext_getElem (by rw [readBytes_length, List.length_take]; omega)
    (fun i h1 h2 => ?_)
  rw [readBytes_length] at h1
  rw [readBytes_getElem _ _ _ _ (by rw [readBytes_length]; exact h1),
    readByte_writeBytes_in _ _ _ _ (by omega),
    List.getElem_take, List.getD_eq_getElem _ _ (by omega)]
  exact Nat.mod_eq_of_lt (hb _ (List.getElem_mem _))

/-- The create branch of `ensure_simple_subdir_exists`, pinned down:
with a missing single-level `/name` and a successful one-block
allocation, the function writes the initialized directory block, scans
the root region of the written disk for a free slot, and either inserts
and re-resolves or fails with the directory-full error. -/
theorem ensure_create_eq (d : Disk) (sb : Superblock) (fat : List Nat)
    (fuel : Nat) (name : List Nat) (nb : Nat) (fat' : List Nat)
    (h47 : (47 : Nat) ∉ name) (hne : name ≠ [])
    (hres : resolve_directory_path d sb fat fuel (47 :: name) = .failed)
    (halloc : allocate_blocks fat 1 = some ([nb], fat')) :
    ensure_simple_subdir_exists d sb fat fuel (47 :: name) =
      match findFreeRootSlot
          (writeBytes d (nb * sb.block_size) (newDirBlockBytes sb nb)) sb with
      | none =>
        (.dirFull,
          writeBytes d (nb * sb.block_size) (newDirBlockBytes sb nb), fat')
      | some j =>
        (ensureOfResolved (resolve_directory_path
            (writeBytes
              (writeBytes d (nb * sb.block_size) (newDirBlockBytes sb nb))
              (rootOffset sb + entrySize * j)
              (encodeEntry (subdirEntry (name.take 30) nb)))
            sb fat' fuel (47 :: name)),
          writeBytes
            (writeBytes d (nb * sb.block_size) (newDirBlockBytes sb nb))
            (rootOffset sb + entrySize * j)
            (encodeEntry (subdirEntry (name.take 30) nb)),
          fat') := by
  unfold ensure_simple_subdir_exists
  rw [if_neg (by simp [hne]), if_neg (by simp),
    if_neg (by simpa using h47), hres, halloc]
  rfl

/-- **C6**: creating a missing single-level `/name` subdirectory
allocates exactly one FAT block `nb` (the one returned by
`allocate_blocks fat 1`, which was free), writes that block initialized
as a directory holding only the self-referential `.` entry (status
`0x05`, `starting_block = nb`), and then inserts a directory entry for
`name` into the first free root slot, after which the operation
succeeds with the new chain head `nb`; if no root slot is free, the
whole operation fails with the directory-full error while the
already-written block stays written and the allocated FAT entry keeps
its sentinel value (it is not reclaimed). -/
theorem subdir_creation_spec (d : Disk) (sb : Superblock) (fat : List Nat)
    (fuel : Nat) (name : List Nat) (nb : Nat) (fat' : List Nat)
    (h47 : (47 : Nat) ∉ name) (hne : name ≠ [])
    (hname30 : name.length ≤ 30) (hbytes : ∀ c ∈ name, 0 < c ∧ c < 256)
    (hfatlen : fat.length < 4294967296)
    (hres : resolve_directory_path d sb fat fuel (47 :: name) = .failed)
    (halloc : allocate_blocks fat 1 = some ([nb], fat'))
    (hepb : 1 ≤ entriesPerBlock sb)
    (hdisj : rootOffset sb + entrySize * rootEntriesCount sb ≤
        nb * sb.block_size ∨
      nb * sb.block_size + sb.block_size ≤ rootOffset sb) :
    (fat.getD nb 0 = 0 ∧ nb < fat.length ∧
      (ensure_simple_subdir_exists d sb fat fuel (47 :: name)).2.2 = fat' ∧
      fat'.getD nb 0 = fatEOF) ∧
    readBytes (ensure_simple_subdir_exists d sb fat fuel (47 :: name)).2.1
        (nb * sb.block_size) (entriesPerBlock sb * entrySize) =
      newDirBlockBytes sb nb ∧
    readEntryAt (ensure_simple_subdir_exists d sb fat fuel (47 :: name)).2.1
        (nb * sb.block_size) = dotEntry nb ∧
    (∀ j, findFreeRootSlot
        (writeBytes d (nb * sb.block_size) (newDirBlockBytes sb nb)) sb =
          some j →
      (ensure_simple_subdir_exists d sb fat fuel (47 :: name)).1 =
          .ok false nb ∧
      readEntryAt (ensure_simple_subdir_exists d sb fat fuel (47 :: name)).2.1
          (rootOffset sb + entrySize * j) = subdirEntry (name.take 30) nb) ∧
    (findFreeRootSlot
        (writeBytes d (nb * sb.block_size) (newDirBlockBytes sb nb)) sb =
          none →
      (ensure_simple_subdir_exists d sb fat fuel (47 :: name)).1 = .dirFull ∧
      (ensure_simple_subdir_exists d sb fat fuel (47 :: name)).2.1 =
        writeBytes d (nb * sb.block_size) (newDirBlockBytes sb nb)) := by
  have hent : entrySize = 64 := rfl
  have hepbmul : entriesPerBlock sb * entrySize ≤ sb.block_size :=
    Nat.div_mul_le_self sb.block_size 64
  have hbs64 : 64 ≤ sb.block_size := by
    have h := (Nat.le_div_iff_mul_le (show 0 < 64 by omega)).mp
      (show 1 ≤ sb.block_size / 64 from hepb)
    omega
  have hcf : collectFree fat 1 = [nb] ∧
      linkChain fat (collectFree fat 1) = fat' := by
    unfold allocate_blocks at halloc
    by_cases hc : (collectFree fat 1).length < 1
    · rw [if_pos hc] at halloc
      exact absurd halloc (by simp)
    · rw [if_neg hc] at halloc
      have hh := (Option.some.injEq _ _).mp halloc
      exact ⟨congrArg Prod.fst hh, congrArg Prod.snd hh⟩
  have hnbmem : nb < fat.length ∧ fat.getD nb 0 = 0 :=
    mem_collectFree fat 1 nb (hcf.1 ▸ List.mem_cons_self _ _)
  have hfat' : fat.set nb fatEOF = fat' := by
    have h := hcf.2
    rw [hcf.1] at h
    exact h
  have hfatEOF : fat'.getD nb 0 = fatEOF := by
    rw [← hfat', getD_set, if_pos ⟨rfl, hnbmem.1⟩]
  have hblock1 : readBytes
      (writeBytes d (nb * sb.block_size) (newDirBlockBytes sb nb))
      (nb * sb.block_size) (entriesPerBlock sb * entrySize) =
      newDirBlockBytes sb nb := by
    have h := readBytes_writeBytes_self d (nb * sb.block_size)
      (newDirBlockBytes sb nb) (newDirBlockBytes_bytes_lt sb nb)
    rwa [newDirBlockBytes_length] at h
  have hdot1 : readEntryAt
      (writeBytes d (nb * sb.block_size) (newDirBlockBytes sb nb))
      (nb * sb.block_size) = dotEntry nb := by
    unfold readEntryAt
    rw [hent, readBytes_writeBytes_prefix d _ _ 64
      (by rw [newDirBlockBytes_length, hent]; omega)
      (newDirBlockBytes_bytes_lt sb nb)]
    unfold newDirBlockBytes
    rw [List.take_take,
      show min 64 (entriesPerBlock sb * entrySize) = 64 by rw [hent]; omega,
      take_append_exact _ _ 64 (encodeEntry_length _),
      decode_encodeEntry _ (dotEntry_wf nb (by omega))]
  have hroot1 : ∀ i, i < rootEntriesCount sb →
      readEntryAt (writeBytes d (nb * sb.block_size) (newDirBlockBytes sb nb))
        (rootOffset sb + entrySize * i) =
      readEntryAt d (rootOffset sb + entrySize * i) := by
    intro i hi
    refine readEntryAt_writeBytes_disjoint _ _ _ _ ?_
    rw [newDirBlockBytes_length]
    rcases hdisj with h | h
    · left
      rw [hent] at *
      omega
    · right
      rw [hent] at *
      omega
  have hfresh : ∀ i, i < rootEntriesCount sb →
      dirMatch name (readEntryAt d (rootOffset sb + entrySize * i)) =
        false := by
    intro i hi
    have hnone : findDirIn (rootEntryList d sb) name = none := by
      rcases hx : findDirIn (rootEntryList d sb) name with _ | e
      · rfl
      · unfold resolve_directory_path at hres
        rw [if_neg (by simp [hne]), if_neg (by simp)] at hres
        simp only [List.drop_succ_cons, List.drop_zero] at hres
        rw [tokenize_single name h47 hne, resolveComponents_cons_root,
          hx] at hres
        rw [show (match some e with
            | none => Resolved.failed
            | some e => resolveComponents d sb fat fuel [] false
                e.starting_block) =
            resolveComponents d sb fat fuel [] false e.starting_block
          from rfl, resolveComponents_nil] at hres
        simp at hres
    have hmem : readEntryAt d (rootOffset sb + entrySize * i) ∈
        rootEntryList d sb := by
      unfold rootEntryList
      exact List.mem_map.mpr ⟨i, List.mem_range.mpr hi, rfl⟩
    exact Bool.eq_false_iff.mpr (List.find?_eq_none.mp hnone _ hmem)
  rw [ensure_create_eq d sb fat fuel name nb fat' h47 hne hres halloc]
  rcases hslot : findFreeRootSlot
      (writeBytes d (nb * sb.block_size) (newDirBlockBytes sb nb)) sb
    with _ | j
  · exact ⟨⟨hnbmem.2, hnbmem.1, rfl, hfatEOF⟩, hblock1, hdot1,
      fun j hj => absurd hj (by simp),
      fun _ => ⟨rfl, rfl⟩⟩
  · have hj_rc : j < rootEntriesCount sb :=
      List.mem_range.mp (List.mem_of_find?_eq_some hslot)
    have hwf : entryWf (subdirEntry (name.take 30) nb) :=
      subdirEntry_wf _ nb (by omega)
    have hbl : ∀ b ∈ encodeEntry (subdirEntry (name.take 30) nb), b < 256 :=
      subdirEntry_bytes_lt _ nb
        (fun c hc => (hbytes c (List.mem_of_mem_take hc)).2)
    have hslot_d2 : readEntryAt
        (writeBytes
          (writeBytes d (nb * sb.block_size) (newDirBlockBytes sb nb))
          (rootOffset sb + entrySize * j)
          (encodeEntry (subdirEntry (name.take 30) nb)))
        (rootOffset sb + entrySize * j) = subdirEntry (name.take 30) nb :=
      readEntryAt_write_self _ _ _ hwf hbl
    have hothers : ∀ i, i < rootEntriesCount sb → i ≠ j →
        readEntryAt
          (writeBytes
            (writeBytes d (nb * sb.block_size) (newDirBlockBytes sb nb))
            (rootOffset sb + entrySize * j)
            (encodeEntry (subdirEntry (name.take 30) nb)))
          (rootOffset sb + entrySize * i) =
        readEntryAt d (rootOffset sb + entrySize * i) := by
      intro i hi hij
      rw [readEntryAt_writeBytes_disjoint _ _ _ _ ?_, hroot1 i hi]
      rw [encodeEntry_length]
      rcases Nat.lt_or_ge i j with h | h
      · left
        rw [hent] at *
        omega
      · right
        rw [hent] at *
        omega
    have hmatch : dirMatch name (subdirEntry (name.take 30) nb) = true := by
      have hused : isUsed (subdirEntry (name.take 30) nb) = true := by
        show (5 : Nat).testBit 0 = true
        decide
      have hdir : isDir (subdirEntry (name.take 30) nb) = true := by
        show (5 : Nat).testBit 2 = true
        decide
      have hcmp : strncmpEq (subdirEntry (name.take 30) nb).filename name
          31 = true := by
        show strncmpEq (nameField (name.take 30)) name 31 = true
        rw [List.take_of_length_le hname30]
        exact strncmpEq_nameField name hname30
          (fun c hc => Nat.pos_iff_ne_zero.mp (hbytes c hc).1)
      unfold dirMatch
      rw [hused, hdir, hcmp]
      rfl
    have hfind : findDirIn (rootEntryList
        (writeBytes
          (writeBytes d (nb * sb.block_size) (newDirBlockBytes sb nb))
          (rootOffset sb + entrySize * j)
          (encodeEntry (subdirEntry (name.take 30) nb))) sb) name =
        some (subdirEntry (name.take 30) nb) := by
      unfold findDirIn rootEntryList
      rw [List.find?_map]
      have hq : (List.range (rootEntriesCount sb)).find?
          (dirMatch name ∘ fun i => readEntryAt
            (writeBytes
              (writeBytes d (nb * sb.block_size) (newDirBlockBytes sb nb))
              (rootOffset sb + entrySize * j)
              (encodeEntry (subdirEntry (name.take 30) nb)))
            (rootOffset sb + entrySize * i)) = some j := by
        refine find?_range_eq_some_of _ _ j hj_rc ?_ ?_
        · simp only [Function.comp_apply]
          rw [hslot_d2, hmatch]
        · intro i hi
          simp only [Function.comp_apply]
          rw [hothers i (by omega) (by omega), hfresh i (by omega)]
      rw [hq, Option.map_some', hslot_d2]
    have hresolve2 : resolve_directory_path
        (writeBytes
          (writeBytes d (nb * sb.block_size) (newDirBlockBytes sb nb))
          (rootOffset sb + entrySize * j)
          (encodeEntry (subdirEntry (name.take 30) nb)))
        sb fat' fuel (47 :: name) = .subdir nb := by
      unfold resolve_directory_path
      rw [if_neg (by simp [hne]), if_neg (by simp)]
      simp only [List.drop_succ_cons, List.drop_zero]
      rw [tokenize_single name h47 hne, resolveComponents_cons_root, hfind]
      rfl
    have hblock2 : readBytes
        (writeBytes
          (writeBytes d (nb * sb.block_size) (newDirBlockBytes sb nb))
          (rootOffset sb + entrySize * j)
          (encodeEntry (subdirEntry (name.take 30) nb)))
        (nb * sb.block_size) (entriesPerBlock sb * entrySize) =
        newDirBlockBytes sb nb := by
      rw [readBytes_writeBytes_disjoint _ _ _ _ _ ?_, hblock1]
      rw [encodeEntry_length]
      rcases hdisj with h | h
      · right
        rw [hent] at *
        omega
      · left
        rw [hent] at *
        omega
    have hdot2 : readEntryAt
        (writeBytes
          (writeBytes d (nb * sb.block_size) (newDirBlockBytes sb nb))
          (rootOffset sb + entrySize * j)
          (encodeEntry (subdirEntry (name.take 30) nb)))
        (nb * sb.block_size) = dotEntry nb := by
      rw [readEntryAt_writeBytes_disjoint _ _ _ _ ?_, hdot1]
      rw [encodeEntry_length]
      rcases hdisj with h | h
      · right
        rw [hent] at *
        omega
      · left
        rw [hent] at *
        omega
    refine ⟨⟨hnbmem.2, hnbmem.1, rfl, hfatEOF⟩, hblock2, hdot2,
      fun j' hj' => ?_, fun hnone => absurd hnone (by simp)⟩
    have hjj : j' = j := (Option.some.inj hj').symm
    subst hjj
    constructor
    · show ensureOfResolved (resolve_directory_path _ sb fat' fuel
        (47 :: name)) = .ok false nb
      rw [hresolve2]
      rfl
    · exact hslot_d2

/-- Test image whose FAT has blocks 0–3 reserved and 4–15 free, with an
empty root region. -/
def freeDisk : Disk :=
  mkDisk (tSbBytes ++ tFatBytes ([1, 1, 1, 1] ++ List.replicate 12 0) ++
    List.replicate (14 * 64) 0)

/-- Witness for C6: storing towards the missing directory `/s` on
`freeDisk` creates it in block 4 and resolves to it. -/
theorem subdir_creation_spec_witness :
    (ensure_simple_subdir_exists freeDisk tSb (loadFat freeDisk tSb) 5
      [47, 115]).1 = .ok false 4 :=
  ((subdir_creation_spec freeDisk tSb (loadFat freeDisk tSb) 5 [115] 4
    ([1, 1, 1, 1, 4294967295] ++ List.replicate 11 0)
    (by decide) (by decide) (by decide) (by decide) (by decide) (by decide)
    (by decide) (by decide) (by decide)).2.2.2.1 0 (by decide)).1

/-! ### Claim C3: what the disk looks like after a failed store -/

/-- Every disk `ensure_simple_subdir_exists` can return is either the
input disk unchanged, or — only when the path initially failed to
resolve — the input disk plus the new directory block written at a
previously free FAT block, possibly plus one root-region slot
overwritten with the new subdirectory's entry. -/
theorem ensure_disk_shape (d : Disk) (sb : Superblock) (fat : List Nat)
    (fuel : Nat) (p : List Nat) :
    (ensure_simple_subdir_exists d sb fat fuel p).2.1 = d ∨
    (resolve_directory_path d sb fat fuel p = .failed ∧
      ∃ nb, fat.getD nb 0 = 0 ∧ nb < fat.length ∧
        ((ensure_simple_subdir_exists d sb fat fuel p).2.1 =
            writeBytes d (nb * sb.block_size) (newDirBlockBytes sb nb) ∨
          ∃ j, j < rootEntriesCount sb ∧
            (ensure_simple_subdir_exists d sb fat fuel p).2.1 =
              writeBytes
                (writeBytes d (nb * sb.block_size) (newDirBlockBytes sb nb))
                (rootOffset sb + entrySize * j)
                (encodeEntry (subdirEntry ((p.drop 1).take 30) nb)))) := by
  rcases p with _ | ⟨c, name⟩
  · left
    rfl
  by_cases hc : c = 47
  · subst hc
    by_cases hname : name = []
    · subst hname
      left
      rfl
    by_cases hml : (47 : Nat) ∈ name
    · left
      unfold ensure_simple_subdir_exists
      rw [if_neg (by simp [hname]), if_neg (by simp),
        if_pos (by simpa using hml)]
    · rcases hres : resolve_directory_path d sb fat fuel (47 :: name)
        with _ | b | _ | _
      · left
        unfold ensure_simple_subdir_exists
        rw [if_neg (by simp [hname]), if_neg (by simp),
          if_neg (by simpa using hml), hres]
      · left
        unfold ensure_simple_subdir_exists
        rw [if_neg (by simp [hname]), if_neg (by simp),
          if_neg (by simpa using hml), hres]
      · rcases halloc : allocate_blocks fat 1 with _ | ⟨blocks, fat'⟩
        · left
          unfold ensure_simple_subdir_exists
          rw [if_neg (by simp [hname]), if_neg (by simp),
            if_neg (by simpa using hml), hres, halloc]
        · have halloc' := halloc
          unfold allocate_blocks at halloc'
          by_cases hlen : (collectFree fat 1).length < 1
          · rw [if_pos hlen] at halloc'
            exact absurd halloc' (by simp)
          · rw [if_neg hlen] at halloc'
            have hh := (Option.some.injEq _ _).mp halloc'
            have hb : collectFree fat 1 = blocks := congrArg Prod.fst hh
            have hlen1 : blocks.length = 1 := by
              have hmin := collectFree_length fat 1
              rw [hb] at hmin hlen
              omega
            obtain ⟨nb, rfl⟩ : ∃ nb, blocks = [nb] := by
              rcases blocks with _ | ⟨x, rest⟩
              · simp at hlen1
              · rcases rest with _ | ⟨y, r2⟩
                · exact ⟨x, rfl⟩
                · simp at hlen1
            have hmem := mem_collectFree fat 1 nb
              (hb ▸ List.mem_cons_self _ _)
            have hallocOk : allocate_blocks fat 1 = some ([nb], fat') := halloc
            right
            refine ⟨rfl, nb, hmem.2, hmem.1, ?_⟩
            rw [ensure_create_eq d sb fat fuel name nb fat'
              hml hname hres hallocOk]
            rcases hslot : findFreeRootSlot
                (writeBytes d (nb * sb.block_size) (newDirBlockBytes sb nb))
                sb with _ | j
            · left
              rfl
            · right
              exact ⟨j, List.mem_range.mp (List.mem_of_find?_eq_some hslot),
                rfl⟩
      · left
        unfold ensure_simple_subdir_exists
        rw [if_neg (by simp [hname]), if_neg (by simp),
          if_neg (by simpa using hml), hres]
  · left
    unfold ensure_simple_subdir_exists
    rw [if_neg (by simp [hc]), if_pos (by simpa using hc)]

/-- **C3** (amended): when `diskput` fails with the out-of-space error
for the file's blocks, the on-disk FAT region is byte-identical before
and after the attempt (the FAT write-back is never reached), and the
whole image is untouched provided the target directory part already
resolved — i.e. no implicit subdirectory creation happened.  When the
failure follows an implicit creation of a missing `/name` directory,
only the new directory block (a previously free block) and one root
slot have been written; the claim's stronger "image untouched" reading
is refuted by `storeFile_out_of_space_after_mkdir`. -/
theorem storeFile_out_of_space_fat_unchanged (d : Disk) (sb : Superblock)
    (fuel : Nat) (path data : List Nat)
    (hsb : readSuperblock d = some sb)
    (hfree : ∀ b, b < (loadFat d sb).length → (loadFat d sb).getD b 0 = 0 →
      sb.fat_start * sb.block_size + 4 * fatEntriesCount sb ≤
          b * sb.block_size ∨
        b * sb.block_size + sb.block_size ≤ sb.fat_start * sb.block_size)
    (hrootfat : sb.fat_start * sb.block_size + 4 * fatEntriesCount sb ≤
        rootOffset sb ∨
      rootOffset sb + entrySize * rootEntriesCount sb ≤
        sb.fat_start * sb.block_size) :
    ∀ r d', diskput d fuel path data = (r, d') → r = .outOfSpace →
      readBytes d' (sb.fat_start * sb.block_size) (4 * fatEntriesCount sb) =
        readBytes d (sb.fat_start * sb.block_size) (4 * fatEntriesCount sb) ∧
      (resolve_directory_path d sb (loadFat d sb) fuel
          (splitTargetPut path).1 ≠ .failed → d' = d) := by
  intro r d' heq hr
  subst hr
  rcases hens : ensure_simple_subdir_exists d sb (loadFat d sb) fuel
      (splitTargetPut path).1 with ⟨er, d1, fat1⟩
  have hd1 : (ensure_simple_subdir_exists d sb (loadFat d sb) fuel
      (splitTargetPut path).1).2.1 = d1 := by rw [hens]
  have hshape := ensure_disk_shape d sb (loadFat d sb) fuel
    (splitTargetPut path).1
  rw [hd1] at hshape
  cases er with
  | pathError =>
    simp only [diskput, hsb, hens] at heq
    simp at heq
  | noSpace =>
    simp only [diskput, hsb, hens] at heq
    simp at heq
  | dirFull =>
    simp only [diskput, hsb, hens] at heq
    simp at heq
  | diverge =>
    simp only [diskput, hsb, hens] at heq
    simp at heq
  | ok isRoot sblk =>
    simp only [diskput, hsb, hens] at heq
    rcases halloc : allocate_blocks fat1
        (blocksNeededFor sb.block_size data.length) with _ | ⟨blocks, fat2⟩
    · simp only [halloc] at heq
      obtain rfl : d' = d1 := (congrArg Prod.snd heq).symm
      have hepbmul : entriesPerBlock sb * entrySize ≤ sb.block_size :=
        Nat.div_mul_le_self sb.block_size 64
      have hent : entrySize = 64 := rfl
      constructor
      · rcases hshape with h | ⟨hfail, nb, hnbfree, hnblt, h1 | ⟨j, hj, h2⟩⟩
        · rw [h]
        · rw [h1, readBytes_writeBytes_disjoint]
          rw [newDirBlockBytes_length]
          rcases hfree nb hnblt hnbfree with h | h
          · left
            omega
          · right
            omega
        · rw [h2, readBytes_writeBytes_disjoint, readBytes_writeBytes_disjoint]
          · rw [newDirBlockBytes_length]
            rcases hfree nb hnblt hnbfree with h | h
            · left
              omega
            · right
              omega
          · rw [encodeEntry_length]
            rcases hrootfat with h | h
            · left
              rw [hent] at *
              omega
            · right
              rw [hent] at *
              omega
      · intro hnf
        rcases hshape with h | ⟨hfail, _⟩
        · exact h
        · exact absurd hfail hnf
    · cases isRoot with
      | true =>
        simp only [halloc] at heq
        rcases hS : findFreeRootSlot
            (writeFileBlocks sb.block_size data d1 blocks 0) sb with _ | j
        · simp only [hS] at heq
          simp at heq
        · simp only [hS] at heq
          simp at heq
      | false =>
        simp only [halloc] at heq
        rcases hins : insertEntryInChain
            (writeFileBlocks sb.block_size data d1 blocks 0) sb fat2
            (newFileEntry (splitTargetPut path).2 (blocks.headD 0)
              (blocksNeededFor sb.block_size data.length) data.length)
            fuel sblk with ⟨io, d3⟩
        cases io with
        | inserted =>
          simp only [hins] at heq
          simp at heq
        | full =>
          simp only [hins] at heq
          simp at heq
        | corrupt =>
          simp only [hins] at heq
          simp at heq
        | diverge =>
          simp only [hins] at heq
          simp at heq

/-- Test image with exactly one free FAT block (block 4); blocks 0–3
and 5–15 are reserved, the root region is empty. -/
def tightDisk : Disk :=
  mkDisk (tSbBytes ++ tFatBytes ([1, 1, 1, 1, 0] ++ List.replicate 11 1) ++
    List.replicate (14 * 64) 0)

/-- Counterexample to C3 as stated: storing `/d/f` on `tightDisk`
fails with the out-of-space error (the single free block was consumed
creating `/d`), yet the on-disk image is *not* untouched — byte 256
(the status byte of the new directory block's `.` entry) changed from
0 to 5 before the failure. -/
theorem storeFile_out_of_space_after_mkdir :
    (diskput tightDisk 20 [47, 100, 47, 102] [1]).1 = .outOfSpace ∧
    readByte (diskput tightDisk 20 [47, 100, 47, 102] [1]).2 256 = 5 ∧
    readByte tightDisk 256 = 0 := by
  refine ⟨?_, ?_, ?_⟩ <;> decide

/-- Witness for the amended C3 on `tightDisk`: the failed store leaves
the on-disk FAT region byte-identical. -/
theorem storeFile_out_of_space_fat_unchanged_witness :
    readBytes (diskput tightDisk 20 [47, 100, 47, 102] [1]).2
        (tSb.fat_start * tSb.block_size) (4 * fatEntriesCount tSb) =
      readBytes tightDisk
        (tSb.fat_start * tSb.block_size) (4 * fatEntriesCount tSb) :=
  (storeFile_out_of_space_fat_unchanged tightDisk tSb 20
    [47, 100, 47, 102] [1] (by decide) (by decide) (by decide)
    (diskput tightDisk 20 [47, 100, 47, 102] [1]).1
    (diskput tightDisk 20 [47, 100, 47, 102] [1]).2
    rfl (by decide)).1

/-! ### Data-block writes -/

theorem fileBlockBytes_length (data : List Nat) (bs i : Nat) :
    (fileBlockBytes data bs i).length = bs := by
  unfold fileBlockBytes
  rw [List.length_append, List.length_replicate, List.length_take]
  omega

theorem fileBlockBytes_bytes_lt (data : List Nat) (bs i : Nat)
    (h : ∀ b ∈ data, b < 256) : ∀ b ∈ fileBlockBytes data bs i, b < 256 := by
  intro b hb
  unfold fileBlockBytes at hb
  rcases List.mem_append.mp hb with h' | h'
  · exact h b (List.mem_of_mem_drop (List.mem_of_mem_take h'))
  · have := List.eq_of_mem_replicate h'
    omega

theorem fileBlockBytes_succ (data : List Nat) (bs i : Nat) :
    fileBlockBytes data bs (i + 1) = fileBlockBytes (data.drop bs) bs i := by
  unfold fileBlockBytes
  rw [List.drop_drop, show (i + 1) * bs = bs + i * bs by ring]

theorem writeFileBlocks_reads_disjoint (bs : Nat) (data : List Nat)
    (off2 len : Nat) :
    ∀ (bl : List Nat) (k : Nat) (d0 : Disk),
      (∀ b ∈ bl, off2 + len ≤ b * bs ∨ b * bs + bs ≤ off2) →
      readBytes (writeFileBlocks bs data d0 bl k) off2 len =
        readBytes d0 off2 len := by
  intro bl
  induction bl with
  | nil => intro k d0 _; rfl
  | cons b rest ih =>
    intro k d0 hdis
    rw [writeFileBlocks, ih (k + 1) _
      (fun x hx => hdis x (List.mem_cons_of_mem _ hx)),
      readBytes_writeBytes_disjoint]
    rw [fileBlockBytes_length]
    rcases hdis b (List.mem_cons_self _ _) with h | h
    · left
      omega
    · right
      omega

theorem writeFileBlocks_reads_block (bs : Nat) (data : List Nat)
    (hdb : ∀ b ∈ data, b < 256) :
    ∀ (bl : List Nat) (k : Nat) (d0 : Disk) (i : Nat),
      bl.Pairwise (· < ·) → i < bl.length →
      readBytes (writeFileBlocks bs data d0 bl k) (bl.getD i 0 * bs) bs =
        fileBlockBytes data bs (k + i) := by
  intro bl
  induction bl with
  | nil => intro k d0 i _ hi; simp at hi
  | cons b rest ih =>
    intro k d0 i hpw hi
    cases i with
    | zero =>
      have hself : readBytes (writeBytes d0 (b * bs) (fileBlockBytes data bs k))
          (b * bs) bs = fileBlockBytes data bs k := by
        have h := readBytes_writeBytes_self d0 (b * bs)
          (fileBlockBytes data bs k) (fileBlockBytes_bytes_lt data bs k hdb)
        rwa [fileBlockBytes_length] at h
      rw [List.getD_cons_zero, writeFileBlocks,
        writeFileBlocks_reads_disjoint bs data (b * bs) bs rest (k + 1) _
          (fun x hx => Or.inl (by
            have hbx : b < x := List.rel_of_pairwise_cons hpw hx
            have := Nat.mul_le_mul_right bs (show b + 1 ≤ x by omega)
            calc b * bs + bs = (b + 1) * bs := by ring
              _ ≤ x * bs := this)),
        hself, Nat.add_zero]
    | succ i' =>
      rw [List.getD_cons_succ, writeFileBlocks,
        ih (k + 1) _ i' (List.Pairwise.of_cons hpw) (by simpa using hi),
        show k + 1 + i' = k + (i' + 1) by omega]

/-! ### The FAT write-back round trip -/

theorem flatten_enc32_length (l : List Nat) :
    ((l.map enc32).flatten).length = 4 * l.length := by
  induction l with
  | nil => rfl
  | cons v rest ih =>
    simp only [List.map_cons, List.flatten_cons, List.length_append, ih,
      enc32_length, List.length_cons]
    omega

theorem flatten_enc32_getD (l : List Nat) :
    ∀ i j, i < l.length → j < 4 →
      ((l.map enc32).flatten).getD (4 * i + j) 0 =
        (enc32 (l.getD i 0)).getD j 0 := by
  induction l with
  | nil => intro i j hi; simp at hi
  | cons v rest ih =>
    intro i j hi hj
    simp only [List.map_cons, List.flatten_cons]
    cases i with
    | zero =>
      rw [Nat.mul_zero, Nat.zero_add,
        List.getD_append _ _ _ _ (by rw [enc32_length]; omega),
        List.getD_cons_zero]
    | succ i' =>
      rw [List.getD_append_right _ _ _ _ (by rw [enc32_length]; omega),
        List.getD_cons_succ, enc32_length,
        show 4 * (i' + 1) + j - 4 = 4 * i' + j by omega,
        ih i' j (by simpa using hi) hj]

theorem loadFat_write_fat (d : Disk) (sb : Superblock) (fat2 : List Nat)
    (hlen : fat2.length = fatEntriesCount sb)
    (hv : ∀ v ∈ fat2, v < 4294967296) :
    loadFat (write_fat d sb fat2) sb = fat2 := by
  have hseg : ∀ i, i < fat2.length →
      readBytes (write_fat d sb fat2)
        (sb.fat_start * sb.block_size + 4 * i) 4 = enc32 (fat2.getD i 0) := by
    intro i hi
    refine List.ext_getElem (by rw [readBytes_length, enc32_length]) ?_
    intro t h1 h2
    rw [readBytes_getElem _ _ _ t h1]
    unfold write_fat
    rw [show sb.fat_start * sb.block_size + 4 * i + t =
        sb.fat_start * sb.block_size + (4 * i + t) by omega,
      readByte_writeBytes_in _ _ _ _
        (by rw [flatten_enc32_length]; rw [enc32_length] at h2; omega),
      flatten_enc32_getD fat2 i t hi (by rw [enc32_length] at h2; omega),
      List.getD_eq_getElem _ _ h2]
    exact Nat.mod_eq_of_lt (enc32_bytes_lt _ _ (List.getElem_mem h2))
  refine List.ext_getElem (by
    unfold loadFat
    rw [List.length_map, List.length_range, hlen]) ?_
  intro i h1 h2
  unfold loadFat
  rw [List.getElem_map, List.getElem_range]
  have hi : i < fat2.length := h2
  have hvi : fat2.getD i 0 < 4294967296 := by
    rw [List.getD_eq_getElem _ _ hi]
    exact hv _ (List.getElem_mem hi)
  rw [hseg i hi, be32_enc32 _ hvi, List.getD_eq_getElem _ _ hi]

theorem loadFat_values_lt (d : Disk) (sb : Superblock) :
    ∀ v ∈ loadFat d sb, v < 4294967296 := by
  intro v hv
  unfold loadFat at hv
  obtain ⟨i, _, rfl⟩ := List.mem_map.mp hv
  refine be32_lt _ ?_ (readBytes_length _ _ _)
  intro x hx
  unfold readBytes at hx
  obtain ⟨t, _, rfl⟩ := List.mem_map.mp hx
  exact readByte_lt _ _

theorem linkChain_getD_cases (fat : List Nat) :
    ∀ (bs : List Nat) (k : Nat),
      (linkChain fat bs).getD k 0 = fat.getD k 0 ∨
      (linkChain fat bs).getD k 0 ∈ bs ∨
      (linkChain fat bs).getD k 0 = fatEOF := by
  intro bs
  induction bs generalizing fat with
  | nil => intro k; left; rfl
  | cons b rest ih =>
    intro k
    cases rest with
    | nil =>
      rw [linkChain, getD_set]
      by_cases hk : k = b ∧ b < fat.length
      · rw [if_pos hk]
        right
        right
        rfl
      · rw [if_neg hk]
        left
        rfl
    | cons b' rest' =>
      rw [linkChain]
      rcases ih (fat.set b b') k with h | h | h
      · rw [h, getD_set]
        by_cases hk : k = b ∧ b < fat.length
        · rw [if_pos hk]
          right
          left
          exact List.mem_cons_of_mem _ (List.mem_cons_self _ _)
        · rw [if_neg hk]
          left
          rfl
      · right
        left
        exact List.mem_cons_of_mem _ h
      · right
        right
        exact h

theorem linkChain_values_lt (fat : List Nat) (bs : List Nat)
    (hf : ∀ v ∈ fat, v < 4294967296) (hb : ∀ b ∈ bs, b < 4294967296) :
    ∀ v ∈ linkChain fat bs, v < 4294967296 := by
  intro v hv
  obtain ⟨k, hk, rfl⟩ := List.mem_iff_getElem.mp hv
  rw [← List.getD_eq_getElem _ 0 hk]
  rcases linkChain_getD_cases fat bs k with h | h | h
  · rw [h]
    by_cases hkl : k < fat.length
    · exact hf _ (List.getD_eq_getElem fat 0 hkl ▸ List.getElem_mem hkl)
    · rw [List.getD_eq_default _ _ (by omega)]
      omega
  · exact hb _ h
  · rw [h]
    unfold fatEOF
    omega

/-! ### Building a well-formed chain from an allocation -/

theorem chainOk_of_links (fat2 : List Nat) :
    ∀ bs : List Nat, bs ≠ [] → (∀ b ∈ bs, b < fat2.length) →
      (∀ j, j + 1 < bs.length →
        fat2.getD (bs.getD j 0) 0 = bs.getD (j + 1) 0) →
      (∀ hne : bs ≠ [], fat2.getD (bs.getLast hne) 0 = fatEOF) →
      chainOk fat2 bs = true := by
  intro bs
  induction bs with
  | nil => intro h; exact absurd rfl h
  | cons b rest ih =>
    intro _ hlt hlink hlast
    cases rest with
    | nil =>
      have h1 : b < fat2.length := hlt b (List.mem_cons_self _ _)
      have h2 := hlast (by simp)
      rw [List.getLast_singleton] at h2
      unfold chainOk
      rw [decide_eq_true h1, decide_eq_true h2]
      rfl
    | cons b' rest' =>
      have h1 : b < fat2.length := hlt b (List.mem_cons_self _ _)
      have h2 : fat2.getD b 0 = b' := hlink 0 (by simp)
      have h3 : chainOk fat2 (b' :: rest') = true := by
        refine ih (by simp) (fun x hx => hlt x (List.mem_cons_of_mem _ hx))
          (fun j hj => hlink (j + 1) (by simpa using hj)) ?_
        intro hne
        have := hlast (by simp)
        rwa [List.getLast_cons (by simp)] at this
      unfold chainOk
      rw [decide_eq_true h1, decide_eq_true h2, h3]
      rfl

/-! ### Reassembling the written data -/

theorem flatten_fileBlocks_take (bs : Nat) (_hbs : 1 ≤ bs) :
    ∀ (n : Nat) (rest : List Nat), rest.length ≤ n * bs →
      (((List.range n).map (fun i => fileBlockBytes rest bs i)).flatten).take
        rest.length = rest := by
  intro n
  induction n with
  | zero =>
    intro rest h
    have : rest = [] := List.eq_nil_of_length_eq_zero (by omega)
    subst this
    rfl
  | succ n ih =>
    intro rest h
    rw [List.range_succ_eq_map, List.map_cons, List.map_map,
      List.flatten_cons]
    have hshift : (List.range n).map
        ((fun i => fileBlockBytes rest bs i) ∘ Nat.succ) =
        (List.range n).map (fun i => fileBlockBytes (rest.drop bs) bs i) := by
      refine List.map_congr_left (fun i _ => ?_)
      simp only [Function.comp_apply]
      rw [show Nat.succ i = i + 1 from rfl, fileBlockBytes_succ]
    rw [hshift]
    by_cases hsm : rest.length ≤ bs
    · have hfb : fileBlockBytes rest bs 0 =
          rest ++ List.replicate (bs - rest.length) 0 := by
        unfold fileBlockBytes
        rw [Nat.zero_mul, List.drop_zero, List.take_of_length_le hsm]
      rw [hfb, List.append_assoc, List.take_append_eq_append_take,
        List.take_length, Nat.sub_self, List.take_zero, List.append_nil]
    · have hfb : fileBlockBytes rest bs 0 = rest.take bs := by
        unfold fileBlockBytes
        rw [Nat.zero_mul, List.drop_zero,
          show bs - (rest.take bs).length = 0 by rw [List.length_take]; omega]
        simp
      rw [hfb, List.take_append_eq_append_take, List.take_take]
      rw [show min rest.length bs = bs by omega]
      rw [List.length_take]
      rw [show min bs rest.length = bs by omega]
      rw [Nat.succ_mul] at h
      have hdrop := ih (rest.drop bs) (by rw [List.length_drop]; omega)
      rw [List.length_drop] at hdrop
      rw [hdrop, List.take_append_drop]

/-! ### Splitting a root-level target path -/

theorem lastSlashIdx_cons_slash (name : List Nat) (h47 : (47 : Nat) ∉ name) :
    lastSlashIdx (47 :: name) = some 0 := by
  unfold lastSlashIdx
  have hlen : (47 :: name).length = name.length + 1 := rfl
  rw [hlen]
  have hfilter : (List.range (name.length + 1)).filter
      (fun i => (47 :: name).getD i 0 = 47) = [0] := by
    rw [List.range_succ_eq_map, List.filter_cons]
    rw [if_pos (by simp)]
    have hmapped : (List.map Nat.succ (List.range name.length)).filter
        (fun i => (47 :: name).getD i 0 = 47) = [] := by
      rw [List.filter_map]
      have hnone : (List.range name.length).filter
          ((fun i => decide ((47 :: name).getD i 0 = 47)) ∘ Nat.succ) = [] := by
        refine List.filter_eq_nil_iff.mpr (fun i hi => ?_)
        have hilt : i < name.length := List.mem_range.mp hi
        simp only [Function.comp_apply]
        have hget : (47 :: name).getD (Nat.succ i) 0 = name.getD i 0 := rfl
        rw [hget]
        have hmem : name.getD i 0 ∈ name := by
          rw [List.getD_eq_getElem _ _ hilt]
          exact List.getElem_mem hilt
        simp only [decide_eq_true_eq]
        intro hc
        exact h47 (hc ▸ hmem)
      rw [hnone]
      rfl
    rw [hmapped]
  rw [hfilter]
  rfl

theorem splitTargetPut_root (name : List Nat) (h47 : (47 : Nat) ∉ name) :
    splitTargetPut (47 :: name) = ([47], name.take 30) := by
  unfold splitTargetPut
  rw [lastSlashIdx_cons_slash name h47]
  rfl

theorem splitTargetGet_root (name : List Nat) (h47 : (47 : Nat) ∉ name) :
    splitTargetGet (47 :: name) = ([47], name.take 31) := by
  unfold splitTargetGet
  rw [lastSlashIdx_cons_slash name h47]
  rfl

/-! ### Root-path shortcuts of the resolvers -/

theorem resolve_root (d : Disk) (sb : Superblock) (fat : List Nat)
    (fuel : Nat) : resolve_directory_path d sb fat fuel [47] = .rootDir := by
  unfold resolve_directory_path
  rw [if_pos (Or.inl rfl)]

theorem ensure_root (d : Disk) (sb : Superblock) (fat : List Nat)
    (fuel : Nat) :
    ensure_simple_subdir_exists d sb fat fuel [47] = (.ok true 0, d, fat) := by
  unfold ensure_simple_subdir_exists
  rw [if_pos (Or.inl rfl)]

/-! ### More scan and geometry helpers -/

theorem find?_congr_pred (p q : Nat → Bool) :
    ∀ l : List Nat, (∀ x ∈ l, p x = q x) → l.find? p = l.find? q := by
  intro l
  induction l with
  | nil => intro _; rfl
  | cons a t ih =>
    intro h
    cases hq : q a
    · rw [List.find?_cons_of_neg _ (by rw [h a (List.mem_cons_self _ _), hq]; simp),
        List.find?_cons_of_neg _ (by rw [hq]; simp)]
      exact ih (fun x hx => h x (List.mem_cons_of_mem _ hx))
    · rw [List.find?_cons_of_pos _ (by rw [h a (List.mem_cons_self _ _), hq]),
        List.find?_cons_of_pos _ (by rw [hq])]

theorem find?_map_eq (f : Nat → DirEntry) (p : DirEntry → Bool) :
    ∀ l : List Nat,
      (l.map f).find? p = ((l.find? (fun x => p (f x))).map f) := by
  intro l
  induction l with
  | nil => rfl
  | cons a t ih =>
    rw [List.map_cons]
    cases hp : p (f a)
    · rw [List.find?_cons_of_neg _ (by rw [hp]; simp),
        List.find?_cons_of_neg _ (by simp [hp]), ih]
    · rw [List.find?_cons_of_pos _ (by rw [hp]),
        List.find?_cons_of_pos _ (by simp [hp])]
      rfl

theorem findFreeRootSlot_ext (d d' : Disk) (sb : Superblock)
    (h : ∀ i, i < rootEntriesCount sb →
      readEntryAt d' (rootOffset sb + entrySize * i) =
        readEntryAt d (rootOffset sb + entrySize * i)) :
    findFreeRootSlot d' sb = findFreeRootSlot d sb := by
  unfold findFreeRootSlot
  exact find?_congr_pred _ _ _
    (fun i hi => by rw [h i (List.mem_range.mp hi)])

theorem entrySize_mul_mono (i n : Nat) (h : i < n) :
    entrySize * i + entrySize ≤ entrySize * n := by
  have h1 : entrySize * (i + 1) ≤ entrySize * n := Nat.mul_le_mul_left _ h
  have h2 : entrySize * (i + 1) = entrySize * i + entrySize := by ring
  omega

theorem loadFat_length (d : Disk) (sb : Superblock) :
    (loadFat d sb).length = fatEntriesCount sb := by
  simp [loadFat]

theorem freeIndices_length_le (fat : List Nat) :
    (freeIndices fat).length ≤ fat.length := by
  unfold freeIndices
  exact le_trans (List.length_filter_le _ _) (by rw [List.length_range])

theorem one_le_blocksNeededFor (bs size : Nat) :
    1 ≤ blocksNeededFor bs size := by
  unfold blocksNeededFor
  by_cases h : (size + bs - 1) / bs = 0
  · rw [if_pos h]
  · rw [if_neg h]
    exact Nat.pos_of_ne_zero h

theorem le_blocksNeededFor_mul (bs size : Nat) (hbs : 1 ≤ bs) :
    size ≤ blocksNeededFor bs size * bs := by
  unfold blocksNeededFor
  by_cases h : (size + bs - 1) / bs = 0
  · rw [if_pos h]
    have h1 := Nat.div_add_mod (size + bs - 1) bs
    have h2 : (size + bs - 1) % bs < bs := Nat.mod_lt _ (by omega)
    rw [h] at h1
    omega
  · rw [if_neg h]
    have h1 := Nat.div_add_mod (size + bs - 1) bs
    have h2 : (size + bs - 1) % bs < bs := Nat.mod_lt _ (by omega)
    rw [Nat.mul_comm]
    omega

theorem writeFileBlocks_readByte_disjoint (bs : Nat) (data : List Nat)
    (a : Nat) :
    ∀ (bl : List Nat) (k : Nat) (d0 : Disk),
      (∀ b ∈ bl, a < b * bs ∨ b * bs + bs ≤ a) →
      readByte (writeFileBlocks bs data d0 bl k) a = readByte d0 a := by
  intro bl
  induction bl with
  | nil => intro k d0 _; rfl
  | cons b rest ih =>
    intro k d0 h
    rw [writeFileBlocks, ih (k + 1) _
      (fun x hx => h x (List.mem_cons_of_mem _ hx))]
    rcases h b (List.mem_cons_self _ _) with h' | h'
    · exact readByte_writeBytes_lt _ _ _ _ h'
    · refine readByte_writeBytes_ge _ _ _ _ ?_
      rw [fileBlockBytes_length]
      omega

theorem findFileIn_rootEntryList_eq (d : Disk) (sb : Superblock)
    (c : List Nat) (j : Nat) (hj : j < rootEntriesCount sb)
    (hpj : fileMatch c (readEntryAt d (rootOffset sb + entrySize * j)) = true)
    (hlt : ∀ i, i < j →
      fileMatch c (readEntryAt d (rootOffset sb + entrySize * i)) = false) :
    findFileIn (rootEntryList d sb) c =
      some (readEntryAt d (rootOffset sb + entrySize * j)) := by
  unfold findFileIn rootEntryList
  rw [find?_map_eq]
  show ((List.range (rootEntriesCount sb)).find?
      (fun i => fileMatch c
        (readEntryAt d (rootOffset sb + entrySize * i)))).map
      (fun i => readEntryAt d (rootOffset sb + entrySize * i)) =
    some (readEntryAt d (rootOffset sb + entrySize * j))
  rw [find?_range_eq_some_of
    (fun i => fileMatch c (readEntryAt d (rootOffset sb + entrySize * i)))
    (rootEntriesCount sb) j hj hpj hlt]
  rfl

/-! ### Claim C1: the store/extract round trip through the root
directory -/

/-- The blocks a root-directory `diskput` allocates for the file's
data. -/
def putBlocks (d : Disk) (sb : Superblock) (data : List Nat) : List Nat :=
  collectFree (loadFat d sb) (blocksNeededFor sb.block_size data.length)

/-- The in-memory FAT after `diskput` links the file's chain. -/
def putFat (d : Disk) (sb : Superblock) (data : List Nat) : List Nat :=
  linkChain (loadFat d sb) (putBlocks d sb data)

/-- The image produced by a successful root-directory `diskput`: the
data-block writes, then the new directory entry at root slot `j`, then
the FAT write-back. -/
def putDisk (d : Disk) (sb : Superblock) (j : Nat) (name data : List Nat) :
    Disk :=
  write_fat
    (writeBytes
      (writeFileBlocks sb.block_size data d (putBlocks d sb data) 0)
      (rootOffset sb + entrySize * j)
      (encodeEntry (newFileEntry name ((putBlocks d sb data).headD 0)
        (blocksNeededFor sb.block_size data.length) data.length)))
    sb (putFat d sb data)

/-- **C1** (amended): the claim's unrestricted round trip is false
(`store_extract_long_name_mismatch`); the correction restricts the
stored name to the width `diskput` actually keeps, and is proven for
root-directory targets.  For a target `/name` — `name` nonempty, at
most 30 bytes (the proviso the counterexample forces: `diskput` stores
30 name bytes plus a forced NUL while `diskget` compares up to 31),
holding no `'/'` or NUL byte, and not already present as an in-use
file entry of the root region — on a valid image whose free data
blocks lie outside the superblock, FAT and root regions, with enough
free FAT entries for the file and a free root slot, storing a byte
sequence with `diskput` and then extracting the same path with
`diskget` returns byte-identical content, for every size the free
entries accommodate (in particular the claimed sizes `0`, `1`,
`block_size-1`, `block_size`, `block_size+1`, `N·block_size`), kept
with `size + block_size < 2^32` inside the domain where the C's 32-bit
ceiling division cannot wrap.  Non-root targets admit no such repair:
a directory component over 30 bytes already fails the store itself
(`subdir_component_truncation_blocks_store`). -/
theorem store_extract_roundtrip (d : Disk) (sb : Superblock) (fuel j : Nat)
    (name data : List Nat)
    (hsb : readSuperblock d = some sb)
    (hbs : 1 ≤ sb.block_size)
    (h47 : (47 : Nat) ∉ name) (_hne : name ≠ [])
    (hname30 : name.length ≤ 30)
    (hbytes : ∀ c ∈ name, 0 < c ∧ c < 256)
    (hdata : ∀ b ∈ data, b < 256)
    (hdlen : data.length + sb.block_size < 4294967296)
    (hfatcap : fatEntriesCount sb ≤ fatEOF)
    (hfat30 : 30 ≤ sb.fat_start * sb.block_size)
    (hroot30 : 30 ≤ rootOffset sb)
    (hrootfat : rootOffset sb + entrySize * rootEntriesCount sb ≤
        sb.fat_start * sb.block_size ∨
      sb.fat_start * sb.block_size + 4 * fatEntriesCount sb ≤ rootOffset sb)
    (hfreeReg : ∀ b, b < (loadFat d sb).length →
      (loadFat d sb).getD b 0 = 0 →
      30 ≤ b * sb.block_size ∧
      (b * sb.block_size + sb.block_size ≤ sb.fat_start * sb.block_size ∨
        sb.fat_start * sb.block_size + 4 * fatEntriesCount sb ≤
          b * sb.block_size) ∧
      (b * sb.block_size + sb.block_size ≤ rootOffset sb ∨
        rootOffset sb + entrySize * rootEntriesCount sb ≤
          b * sb.block_size))
    (hfreecnt : blocksNeededFor sb.block_size data.length ≤
      (freeIndices (loadFat d sb)).length)
    (hslot : findFreeRootSlot d sb = some j)
    (hfresh : ∀ i, i < rootEntriesCount sb →
      fileMatch name (readEntryAt d (rootOffset sb + entrySize * i)) = false)
    (hfuel : blocksNeededFor sb.block_size data.length < fuel) :
    (diskput d fuel (47 :: name) data).1 = .ok ∧
    diskget (diskput d fuel (47 :: name) data).2 fuel (47 :: name) =
      .ok data := by
  have h30 : name.take 30 = name := List.take_of_length_le hname30
  have h31 : name.take 31 = name := List.take_of_length_le (by omega)
  have hsplitP := splitTargetPut_root name h47
  have hsplitG := splitTargetGet_root name h47
  have hsplit1 : (splitTargetPut (47 :: name)).1 = [47] := by rw [hsplitP]
  have hsplit2 : (splitTargetPut (47 :: name)).2 = name := by
    rw [hsplitP]
    exact h30
  have hsplitG1 : (splitTargetGet (47 :: name)).1 = [47] := by rw [hsplitG]
  have hsplitG2 : (splitTargetGet (47 :: name)).2 = name := by
    rw [hsplitG]
    exact h31
  have hfatlen : (loadFat d sb).length = fatEntriesCount sb :=
    loadFat_length d sb
  have hbn1 : 1 ≤ blocksNeededFor sb.block_size data.length :=
    one_le_blocksNeededFor _ _
  have hblen : (putBlocks d sb data).length =
      blocksNeededFor sb.block_size data.length := by
    unfold putBlocks
    rw [collectFree_length]
    omega
  have hbne : putBlocks d sb data ≠ [] := by
    intro h
    rw [h] at hblen
    simp at hblen
    omega
  have halloc : allocate_blocks (loadFat d sb)
      (blocksNeededFor sb.block_size data.length) =
      some (putBlocks d sb data, putFat d sb data) := by
    have hc : ¬ (collectFree (loadFat d sb)
        (blocksNeededFor sb.block_size data.length)).length <
        blocksNeededFor sb.block_size data.length := by
      have hblen' := hblen
      unfold putBlocks at hblen'
      omega
    show (if (collectFree (loadFat d sb)
        (blocksNeededFor sb.block_size data.length)).length <
        blocksNeededFor sb.block_size data.length then none
      else some (collectFree (loadFat d sb)
          (blocksNeededFor sb.block_size data.length),
        linkChain (loadFat d sb) (collectFree (loadFat d sb)
          (blocksNeededFor sb.block_size data.length)))) =
      some (putBlocks d sb data, putFat d sb data)
    rw [if_neg hc]
    rfl
  have hmemblocks : ∀ b ∈ putBlocks d sb data,
      b < (loadFat d sb).length ∧ (loadFat d sb).getD b 0 = 0 :=
    fun b hb => mem_collectFree _ _ b hb
  have hfreeB : ∀ b ∈ putBlocks d sb data,
      30 ≤ b * sb.block_size ∧
      (b * sb.block_size + sb.block_size ≤ sb.fat_start * sb.block_size ∨
        sb.fat_start * sb.block_size + 4 * fatEntriesCount sb ≤
          b * sb.block_size) ∧
      (b * sb.block_size + sb.block_size ≤ rootOffset sb ∨
        rootOffset sb + entrySize * rootEntriesCount sb ≤
          b * sb.block_size) :=
    fun b hb => hfreeReg b (hmemblocks b hb).1 (hmemblocks b hb).2
  have hpw : (putBlocks d sb data).Pairwise (· < ·) :=
    collectFree_pairwise _ _
  have hnd : (putBlocks d sb data).Nodup := collectFree_nodup _ _
  have hputfatlen : (putFat d sb data).length = fatEntriesCount sb := by
    unfold putFat
    rw [linkChain_length, hfatlen]
  have hfatEOFval : fatEOF = 4294967295 := rfl
  have hblt : ∀ b ∈ putBlocks d sb data, b < (putFat d sb data).length := by
    intro b hb
    rw [hputfatlen, ← hfatlen]
    exact (hmemblocks b hb).1
  have hchain : chainOk (putFat d sb data) (putBlocks d sb data) = true := by
    refine chainOk_of_links _ _ hbne hblt ?_ ?_
    · intro j' hj'
      exact linkChain_getD_link (loadFat d sb) _ hnd
        (fun b hb => (hmemblocks b hb).1) j' hj'
    · intro hne'
      exact linkChain_getD_last (loadFat d sb) _ hne'
        (fun b hb => (hmemblocks b hb).1)
  have hheadmem : (putBlocks d sb data).headD 0 ∈ putBlocks d sb data := by
    rcases hpb : putBlocks d sb data with _ | ⟨x, t⟩
    · exact absurd hpb hbne
    · simp
  have hheadlt : (putBlocks d sb data).headD 0 < 4294967296 := by
    have h1 := (hmemblocks _ hheadmem).1
    rw [hfatlen] at h1
    omega
  have hbnlt : blocksNeededFor sb.block_size data.length < 4294967296 := by
    have h1 := freeIndices_length_le (loadFat d sb)
    rw [hfatlen] at h1
    omega
  have hwfent : entryWf (newFileEntry name ((putBlocks d sb data).headD 0)
      (blocksNeededFor sb.block_size data.length) data.length) :=
    newFileEntry_wf _ _ _ _ hheadlt hbnlt (by omega)
  have hentB : ∀ b ∈ encodeEntry (newFileEntry name
      ((putBlocks d sb data).headD 0)
      (blocksNeededFor sb.block_size data.length) data.length), b < 256 :=
    newFileEntry_bytes_lt _ _ _ _ (fun c hc => (hbytes c hc).2)
  have hj : j < rootEntriesCount sb :=
    List.mem_range.mp (List.mem_of_find?_eq_some hslot)
  have hslotub := entrySize_mul_mono j (rootEntriesCount sb) hj
  have hLlen : (((putFat d sb data).map enc32).flatten).length =
      4 * fatEntriesCount sb := by
    rw [flatten_enc32_length, hputfatlen]
  have hdisjRootBlocks : ∀ i, i < rootEntriesCount sb →
      ∀ b ∈ putBlocks d sb data,
      rootOffset sb + entrySize * i + entrySize ≤ b * sb.block_size ∨
        b * sb.block_size + sb.block_size ≤ rootOffset sb + entrySize * i := by
    intro i hi b hb
    have hub := entrySize_mul_mono i (rootEntriesCount sb) hi
    rcases (hfreeB b hb).2.2 with h | h
    · right
      omega
    · left
      omega
  have hrootread : ∀ i, i < rootEntriesCount sb →
      readEntryAt
        (writeFileBlocks sb.block_size data d (putBlocks d sb data) 0)
        (rootOffset sb + entrySize * i) =
      readEntryAt d (rootOffset sb + entrySize * i) := by
    intro i hi
    unfold readEntryAt
    rw [writeFileBlocks_reads_disjoint sb.block_size data
      (rootOffset sb + entrySize * i) entrySize (putBlocks d sb data) 0 d
      (hdisjRootBlocks i hi)]
  have hslotd2 : findFreeRootSlot
      (writeFileBlocks sb.block_size data d (putBlocks d sb data) 0) sb =
      some j := by
    rw [findFreeRootSlot_ext d
      (writeFileBlocks sb.block_size data d (putBlocks d sb data) 0) sb
      hrootread]
    exact hslot
  have hens : ensure_simple_subdir_exists d sb (loadFat d sb) fuel
      (splitTargetPut (47 :: name)).1 = (.ok true 0, d, loadFat d sb) := by
    rw [hsplit1]
    exact ensure_root d sb (loadFat d sb) fuel
  have hputEq : diskput d fuel (47 :: name) data =
      (.ok, putDisk d sb j name data) := by
    simp only [diskput, hsb, hens, halloc, hsplit2, hslotd2]
    rfl
  have hpres : ∀ a, a < 30 →
      readByte (putDisk d sb j name data) a = readByte d a := by
    intro a ha
    unfold putDisk write_fat
    rw [readByte_writeBytes_lt _ _ _ _ (by omega),
      readByte_writeBytes_lt _ _ _ _ (by omega)]
    exact writeFileBlocks_readByte_disjoint sb.block_size data a
      (putBlocks d sb data) 0 d
      (fun b hb => Or.inl (by have := (hfreeB b hb).1; omega))
  have hsb' : readSuperblock (putDisk d sb j name data) = some sb := by
    have hrb : ∀ off len, off + len ≤ 30 →
        readBytes (putDisk d sb j name data) off len =
          readBytes d off len :=
      fun off len h => readBytes_ext _ _ _ _
        (fun i hi => hpres (off + i) (by omega))
    unfold readSuperblock at hsb ⊢
    rw [hrb 0 8 (by omega), hrb 8 2 (by omega), hrb 10 4 (by omega),
      hrb 14 4 (by omega), hrb 18 4 (by omega), hrb 22 4 (by omega),
      hrb 26 4 (by omega)]
    exact hsb
  have hfatP : loadFat (putDisk d sb j name data) sb = putFat d sb data := by
    have hvals : ∀ v ∈ putFat d sb data, v < 4294967296 := by
      refine linkChain_values_lt _ _ (loadFat_values_lt d sb) ?_
      intro b hb
      have h1 := (hmemblocks b hb).1
      rw [hfatlen] at h1
      omega
    unfold putDisk
    exact loadFat_write_fat _ sb (putFat d sb data) hputfatlen hvals
  have hslotdisj : rootOffset sb + entrySize * j + entrySize ≤
      sb.fat_start * sb.block_size ∨
      sb.fat_start * sb.block_size +
        (((putFat d sb data).map enc32).flatten).length ≤
        rootOffset sb + entrySize * j := by
    rcases hrootfat with h | h
    · left
      omega
    · right
      rw [hLlen]
      omega
  have hentry_at_j : readEntryAt (putDisk d sb j name data)
      (rootOffset sb + entrySize * j) =
      newFileEntry name ((putBlocks d sb data).headD 0)
        (blocksNeededFor sb.block_size data.length) data.length := by
    unfold putDisk write_fat
    rw [readEntryAt_writeBytes_disjoint _ _ _ _ hslotdisj]
    exact readEntryAt_write_self _ _ _ hwfent hentB
  have hentry_at_i : ∀ i, i < rootEntriesCount sb → i ≠ j →
      readEntryAt (putDisk d sb j name data)
        (rootOffset sb + entrySize * i) =
      readEntryAt d (rootOffset sb + entrySize * i) := by
    intro i hi hij
    have hub_i := entrySize_mul_mono i (rootEntriesCount sb) hi
    unfold putDisk write_fat
    rw [readEntryAt_writeBytes_disjoint _ _ _ _ (by
      rcases hrootfat with h | h
      · left
        omega
      · right
        rw [hLlen]
        omega)]
    rw [readEntryAt_writeBytes_disjoint _ _ _ _ (by
      rw [encodeEntry_length]
      have he : entrySize = 64 := rfl
      rcases Nat.lt_or_ge i j with h | h
      · left
        have := entrySize_mul_mono i j h
        omega
      · have h' : j < i := by omega
        right
        have := entrySize_mul_mono j i h'
        omega)]
    exact hrootread i hi
  have hmatch : fileMatch name (newFileEntry name
      ((putBlocks d sb data).headD 0)
      (blocksNeededFor sb.block_size data.length) data.length) = true := by
    have hs := strncmpEq_nameField name hname30
      (fun c hc => by have := hbytes c hc; omega)
    simp only [fileMatch, newFileEntry, isUsed, isFile, Bool.and_eq_true]
    refine ⟨⟨by decide, by decide⟩, hs⟩
  have hfind : findFileIn
      (rootEntryList (putDisk d sb j name data) sb) name =
      some (newFileEntry name ((putBlocks d sb data).headD 0)
        (blocksNeededFor sb.block_size data.length) data.length) := by
    rw [findFileIn_rootEntryList_eq (putDisk d sb j name data) sb name j hj
      (by rw [hentry_at_j]; exact hmatch)
      (fun i hij => by
        rw [hentry_at_i i (by omega) (by omega)]
        exact hfresh i (by omega)),
      hentry_at_j]
  have hdisjFatBlocks : ∀ b ∈ putBlocks d sb data,
      b * sb.block_size + sb.block_size ≤ sb.fat_start * sb.block_size ∨
      sb.fat_start * sb.block_size +
        (((putFat d sb data).map enc32).flatten).length ≤
        b * sb.block_size := by
    intro b hb
    rcases (hfreeB b hb).2.1 with h | h
    · left
      exact h
    · right
      rw [hLlen]
      exact h
  have hdisjSlotBlocks : ∀ b ∈ putBlocks d sb data,
      b * sb.block_size + sb.block_size ≤ rootOffset sb + entrySize * j ∨
      rootOffset sb + entrySize * j +
        (encodeEntry (newFileEntry name ((putBlocks d sb data).headD 0)
          (blocksNeededFor sb.block_size data.length)
          data.length)).length ≤
        b * sb.block_size := by
    intro b hb
    rcases (hfreeB b hb).2.2 with h | h
    · left
      omega
    · right
      rw [encodeEntry_length]
      have he : entrySize = 64 := rfl
      omega
  have hblocksread : ∀ i, i < (putBlocks d sb data).length →
      readBytes (putDisk d sb j name data)
        ((putBlocks d sb data).getD i 0 * sb.block_size) sb.block_size =
      fileBlockBytes data sb.block_size i := by
    intro i hi
    have hbmem : (putBlocks d sb data).getD i 0 ∈ putBlocks d sb data := by
      rw [List.getD_eq_getElem _ _ hi]
      exact List.getElem_mem hi
    unfold putDisk write_fat
    rw [readBytes_writeBytes_disjoint _ _ _ _ _ (hdisjFatBlocks _ hbmem),
      readBytes_writeBytes_disjoint _ _ _ _ _ (hdisjSlotBlocks _ hbmem)]
    have hwr := writeFileBlocks_reads_block sb.block_size data hdata
      (putBlocks d sb data) 0 d i hpw hi
    rwa [Nat.zero_add] at hwr
  have hmap : (putBlocks d sb data).map
      (fun b => readBytes (putDisk d sb j name data)
        (b * sb.block_size) sb.block_size) =
      (List.range (putBlocks d sb data).length).map
        (fun i => fileBlockBytes data sb.block_size i) := by
    refine List.ext_getElem (by simp) (fun i h1 h2 => ?_)
    rw [List.getElem_map, List.getElem_map, List.getElem_range]
    have h1' : i < (putBlocks d sb data).length := by simpa using h1
    have hread := hblocksread i h1'
    rwa [List.getD_eq_getElem _ _ h1'] at hread
  have hchaindata : (chainData (putDisk d sb j name data) sb
      (putBlocks d sb data)).take data.length = data := by
    unfold chainData
    rw [hmap, hblen]
    exact flatten_fileBlocks_take sb.block_size hbs
      (blocksNeededFor sb.block_size data.length) data
      (le_blocksNeededFor_mul sb.block_size data.length hbs)
  have hlenEOF : (putFat d sb data).length ≤ fatEOF := by
    rw [hputfatlen]
    exact hfatcap
  have hfuel' : (putBlocks d sb data).length < fuel := by
    rw [hblen]
    exact hfuel
  have hcore : readFileChain (putDisk d sb j name data) sb
      (putFat d sb data) fuel ((putBlocks d sb data).headD 0)
      data.length = .ok data := by
    rw [readFileChain_chain_core (putDisk d sb j name data) sb
      (putFat d sb data) (putBlocks d sb data) fuel data.length hchain
      hlenEOF hfuel', hchaindata]
  refine ⟨?_, ?_⟩
  · rw [hputEq]
  · rw [hputEq]
    show diskget (putDisk d sb j name data) fuel (47 :: name) = .ok data
    simp only [diskget, hsb', hsplitG1, hsplitG2, resolve_root, hfatP, hfind,
      newFileEntry]
    rw [hcore]
    rfl

/-- Counterexample to C1 as stated: on `freeDisk` — a valid image with
12 free FAT blocks and 2 free root slots — storing one byte under a
31-character filename succeeds, but extracting the same path fails with
"file not found": `diskput` stores only the first 30 name bytes
(`strncpy(..., 30)` plus a forced terminator) while `diskget` compares
31 bytes of the requested name, so the stored and requested names never
match. -/
theorem store_extract_long_name_mismatch :
    (diskput freeDisk 2 (47 :: List.replicate 31 97) [9]).1 = .ok ∧
    diskget (diskput freeDisk 2 (47 :: List.replicate 31 97) [9]).2 2
      (47 :: List.replicate 31 97) = .notFound := by
  refine ⟨?_, ?_⟩ <;> decide

/-- The 30/31 truncation asymmetry also breaks non-root targets, at the
directory component and already at store time: storing `/D/f` on the
roomy `freeDisk`, with `D` a 31-character directory name and `f` a
short fresh filename, fails outright with the directory-not-found
error — `ensure_simple_subdir_exists` creates `D` truncated to 30
bytes and its closing 31-byte re-resolve then cannot find it.  Hence
no round trip over arbitrary target directories can hold, and the
amended C1 confines itself to root-level targets. -/
theorem subdir_component_truncation_blocks_store :
    (diskput freeDisk 3 ((47 :: List.replicate 31 97) ++ [47, 102])
      [9]).1 = .dirNotFound := by
  decide

/-- Witness for the amended C1 on `freeDisk`: storing `[9, 8, 7]` as
`/f` and reading `/f` back returns `[9, 8, 7]`. -/
theorem store_extract_roundtrip_witness :
    (diskput freeDisk 2 (47 :: [102]) [9, 8, 7]).1 = .ok ∧
    diskget (diskput freeDisk 2 (47 :: [102]) [9, 8, 7]).2 2
      (47 :: [102]) = .ok [9, 8, 7] :=
  store_extract_roundtrip freeDisk tSb 2 0 [102] [9, 8, 7]
    (by decide) (by decide) (by decide) (by decide) (by decide) (by decide)
    (by decide) (by decide) (by decide) (by decide) (by decide) (by decide)
    (by decide) (by decide) (by decide) (by decide) (by decide)

end CSC360FS
